import Mathlib

/-!
GLTest, the grid renderer of `src/main.cpp`: a verification development.

A shallow embedding of `main` and `processInput`.

* The heap array `vertices` is a record of its allocated length, its cells (a cell that was
  never assigned holds no value) and the log of the indices assigned so far.  An assignment
  through an index outside the allocation has no result.
* Floating-point values are IEEE 754 data over exact rationals: every `float` and `double`
  operation rounds its exact result to nearest, ties to even.  The coordinates stored by the
  grid generator and the frame-rate value shown in the window title are computed this way.
* Calls into GLFW, glad, OpenGL and the standard streams are recorded in a trace; what they
  return is read from an oracle of outcomes.  Of `framebuffer_size_callback` only the
  registration is recorded: it touches nothing that `main` reads.
-/

namespace GLTest

/-! ## IEEE 754 arithmetic -/

/-- The value of a binary floating-point datum: a finite number, an infinity with its sign
(`neg`), or a NaN.  The sign of a zero is not recorded; every zero stands for `+0`, the only
zero the expressions of this program can produce. -/
inductive FP
  | fin (q : ℚ)
  | inf (neg : Bool)
  | nan
  deriving DecidableEq

/-- A binary format: `prec` significand bits, `emin` the exponent of the least subnormal,
`emax` the exponent of the greatest binade. -/
structure Fmt where
  prec : Nat
  emin : Int
  emax : Int

/-- The format of `float`. -/
def binary32 : Fmt := { prec := 24, emin := -149, emax := 127 }

/-- The format of `double`. -/
def binary64 : Fmt := { prec := 53, emin := -1074, emax := 1023 }

/-- The integer nearest to `q`, ties to the even one. -/
def roundNE (q : ℚ) : ℤ :=
  if q - ⌊q⌋ < 1/2 then ⌊q⌋
  else if 1/2 < q - ⌊q⌋ then ⌊q⌋ + 1
  else if ⌊q⌋ % 2 = 0 then ⌊q⌋ else ⌊q⌋ + 1

/-- Exponent of the unit in the last place of format `F` at `q`. -/
def ulpExp (F : Fmt) (q : ℚ) : ℤ := max (Int.log 2 |q| - (F.prec - 1)) F.emin

/-- Rounding of the exact result `q` into format `F`, to nearest, ties to even, with gradual
underflow and with overflow to infinity. -/
def Fmt.round (F : Fmt) (q : ℚ) : FP :=
  if q = 0 then FP.fin 0
  else if 2 ^ (F.emax + 1) ≤ |(roundNE (q / 2 ^ ulpExp F q) : ℚ) * 2 ^ ulpExp F q| then
    FP.inf (decide (q < 0))
  else FP.fin ((roundNE (q / 2 ^ ulpExp F q) : ℚ) * 2 ^ ulpExp F q)

/-- Addition in format `F`. -/
def FP.add (F : Fmt) : FP → FP → FP
  | FP.fin a, FP.fin b => F.round (a + b)
  | FP.fin _, FP.inf s => FP.inf s
  | FP.inf s, FP.fin _ => FP.inf s
  | FP.inf s, FP.inf t => if s = t then FP.inf s else FP.nan
  | _, _ => FP.nan

/-- Multiplication in format `F`. -/
def FP.mul (F : Fmt) : FP → FP → FP
  | FP.fin a, FP.fin b => F.round (a * b)
  | FP.fin a, FP.inf s => if a = 0 then FP.nan else FP.inf (xor s (decide (a < 0)))
  | FP.inf s, FP.fin b => if b = 0 then FP.nan else FP.inf (xor s (decide (b < 0)))
  | FP.inf s, FP.inf t => FP.inf (xor s t)
  | _, _ => FP.nan

/-- Division in format `F`; a nonzero finite number over zero is an infinity. -/
def FP.div (F : Fmt) : FP → FP → FP
  | FP.fin a, FP.fin b =>
    if b = 0 then (if a = 0 then FP.nan else FP.inf (decide (a < 0))) else F.round (a / b)
  | FP.fin _, FP.inf _ => FP.fin 0
  | FP.inf s, FP.fin b => FP.inf (xor s (decide (b < 0)))
  | _, _ => FP.nan

/-- Conversion of a floating-point value to format `F`. -/
def FP.cast (F : Fmt) : FP → FP
  | FP.fin a => F.round a
  | FP.inf s => FP.inf s
  | FP.nan => FP.nan

/-! ## The vertex array -/

/-- The array behind `float* vertices`: `size` floats were allocated, `cell k` is the value
last assigned to `vertices[k]` (`none` while it was never assigned), and `writes` lists the
indices assigned so far, oldest first. -/
structure FloatBuf where
  size : Nat
  cell : Nat → Option FP
  writes : List Nat

/-- The result of `new float[n]`: nothing is initialised. -/
def newFloatArray (n : Nat) : FloatBuf :=
  { size := n, cell := fun _ => none, writes := [] }

/-- The assignment `vertices[idx] = v`, checked against the allocated length. -/
def FloatBuf.store (b : FloatBuf) (idx : Nat) (v : FP) : Option FloatBuf :=
  if idx < b.size then
    some { size := b.size, cell := Function.update b.cell idx (some v), writes := b.writes ++ [idx] }
  else none

/-- The expression `(((float)-i + 40.0f)) / 40.0f`: the integer `-i` is converted to `float`,
`40.0f` is added and the sum is divided by `40.0f`, each in `float`. -/
def lineCoord (i : Nat) : FP :=
  FP.div binary32
    (FP.add binary32 (binary32.round ((-(i : ℤ) : ℤ) : ℚ)) (binary32.round 40))
    (binary32.round 40)

/-- Body of the first loop (lines 162 to 176): the two vertices of horizontal line `i`.  The
literals `-1.0f`, `0.0f`, `0.5f` and `1.0f` are `float` values as written. -/
def hBody (vertices : FloatBuf) (i : Nat) : Option FloatBuf := do
  let vertices ← vertices.store (i*12) (FP.fin (-1))
  let vertices ← vertices.store (i*12+1) (lineCoord i)
  let vertices ← vertices.store (i*12+2) (FP.fin 0)
  let vertices ← vertices.store (i*12+3) (FP.fin (1/2))
  let vertices ← vertices.store (i*12+4) (FP.fin (1/2))
  let vertices ← vertices.store (i*12+5) (FP.fin (1/2))
  let vertices ← vertices.store (i*12+6) (FP.fin 1)
  let vertices ← vertices.store (i*12+7) (lineCoord i)
  let vertices ← vertices.store (i*12+8) (FP.fin 0)
  let vertices ← vertices.store (i*12+9) (FP.fin (1/2))
  let vertices ← vertices.store (i*12+10) (FP.fin (1/2))
  vertices.store (i*12+11) (FP.fin (1/2))

/-- The loop `for (int i = ...; i <= 80; i++)` over `hBody`, entered with counter `i`. -/
def hLoop (vertices : FloatBuf) (i : Nat) : Option FloatBuf :=
  if i ≤ 80 then
    match hBody vertices i with
    | some vertices => hLoop vertices (i+1)
    | none => none
  else some vertices
termination_by 81 - i

/-- Body of the second loop (lines 181 to 195): the two vertices of vertical line `i`. -/
def vBody (vertices : FloatBuf) (offset i : Nat) : Option FloatBuf := do
  let vertices ← vertices.store (offset+i*12) (lineCoord i)
  let vertices ← vertices.store (offset+i*12+1) (FP.fin (-1))
  let vertices ← vertices.store (offset+i*12+2) (FP.fin 0)
  let vertices ← vertices.store (offset+i*12+3) (FP.fin (1/2))
  let vertices ← vertices.store (offset+i*12+4) (FP.fin (1/2))
  let vertices ← vertices.store (offset+i*12+5) (FP.fin (1/2))
  let vertices ← vertices.store (offset+i*12+6) (lineCoord i)
  let vertices ← vertices.store (offset+i*12+7) (FP.fin 1)
  let vertices ← vertices.store (offset+i*12+8) (FP.fin 0)
  let vertices ← vertices.store (offset+i*12+9) (FP.fin (1/2))
  let vertices ← vertices.store (offset+i*12+10) (FP.fin (1/2))
  vertices.store (offset+i*12+11) (FP.fin (1/2))

/-- The loop `for (int i = ...; i <= 80; i++)` over `vBody`, entered with counter `i`. -/
def vLoop (vertices : FloatBuf) (offset i : Nat) : Option FloatBuf :=
  if i ≤ 80 then
    match vBody vertices offset i with
    | some vertices => vLoop vertices offset (i+1)
    | none => none
  else some vertices
termination_by 81 - i

/-- Length of the allocation `new float[81 * 2 * 6 * 2]`. -/
def hostLen : Nat := 81 * 2 * 6 * 2

/-- The value of `int offset = 81 * 2 * 6`. -/
def vOffset : Nat := 81 * 2 * 6

/-- The array as it stands after the first loop. -/
def afterHorizontal : Option FloatBuf :=
  hLoop (newFloatArray hostLen) 0

/-- Lines 159 to 196: allocate, run the first loop, then the second. -/
def gridVertices : Option FloatBuf :=
  match afterHorizontal with
  | some vertices => vLoop vertices vOffset 0
  | none => none

/-! ## Vertex layout, upload and draw -/

/-- Stride of both attribute pointers, in floats (`6 * sizeof(float)` bytes). -/
def strideFloats : Nat := 6

/-- Offset of the position attribute (location 0), in floats (`(void*)0`). -/
def posOffsetFloats : Nat := 0

/-- Offset of the colour attribute (location 1), in floats (`3 * sizeof(float)` bytes). -/
def colorOffsetFloats : Nat := 3

/-- Number of components of either attribute (second argument of `glVertexAttribPointer`). -/
def attribSize : Nat := 3

/-- Component `c` of the position of vertex `k`. -/
def posComp (b : FloatBuf) (k c : Nat) : Option FP :=
  b.cell (strideFloats * k + posOffsetFloats + c)

/-- Component `c` of the colour of vertex `k`. -/
def colorComp (b : FloatBuf) (k c : Nat) : Option FP :=
  b.cell (strideFloats * k + colorOffsetFloats + c)

/-- Byte count passed to `glBufferData`: `sizeof(float) * 81 * 2 * 2 * 6`. -/
def uploadBytes (sizeofFloat : Nat) : Nat := sizeofFloat * 81 * 2 * 2 * 6

/-- Vertex count passed to `glDrawArrays`: `81 * 4`. -/
def drawCount : Nat := 81 * 4

/-- Float index `idx` of the bound buffer is fetched by the draw call: it is a component of
one of the two enabled attributes of a vertex below the draw count. -/
def drawFetches (idx : Nat) : Prop :=
  ∃ k c, k < drawCount ∧ c < attribSize ∧
    (idx = strideFloats * k + posOffsetFloats + c ∨ idx = strideFloats * k + colorOffsetFloats + c)

/-- Stride passed to both `glVertexAttribPointer` calls, in bytes: `6 * sizeof(float)`. -/
def strideBytes (sizeofFloat : Nat) : Nat := 6 * sizeofFloat

/-- Pointer argument of the colour attribute, in bytes: `3 * sizeof(float)`. -/
def colorOffsetBytes (sizeofFloat : Nat) : Nat := 3 * sizeofFloat

/-- Byte `off` of the bound buffer is fetched by the draw call: it is byte `byte` of component
`c` of the position (pointer `0`) or of the colour of a vertex below the draw count. -/
def drawFetchesByte (sizeofFloat off : Nat) : Prop :=
  ∃ k c byte, k < drawCount ∧ c < attribSize ∧ byte < sizeofFloat ∧
    (off = strideBytes sizeofFloat * k + 0 + c * sizeofFloat + byte ∨
     off = strideBytes sizeofFloat * k + colorOffsetBytes sizeofFloat + c * sizeofFloat + byte)

/-! ## The frame rate and the window title -/

/-- The expression `1000.0f / (float)(1e-6 * total_frame_time_ns)`: the count is converted to
`double`, multiplied by the `double` nearest to `1e-6`, converted to `float`, and `1000.0f` is
divided by it in `float`. -/
def fpsValue (total_frame_time_ns : Int) : FP :=
  FP.div binary32 (binary32.round 1000)
    (FP.cast binary32
      (FP.mul binary64 (binary64.round (1 / 1000000)) (binary64.round (total_frame_time_ns : ℚ))))

/-- Decimal digits of a natural number, most significant first. -/
def natDigits (n : Nat) : List Char :=
  if n < 10 then [Nat.digitChar n] else natDigits (n / 10) ++ [Nat.digitChar (n % 10)]
decreasing_by omega

/-- The `width` low decimal digits of `n`, most significant first, zero padded. -/
def fracDigits : Nat → Nat → List Char
  | 0, _ => []
  | width + 1, n => fracDigits width (n / 10) ++ [Nat.digitChar (n % 10)]

/-- Output of a stream in `fixed` format with precision `prec`: the value rounded to `prec`
decimals (to nearest, ties to even, on the exact value), a minus sign for a negative value,
and `inf` or `nan` for the special values. -/
def formatFixed (prec : Nat) : FP → List Char
  | FP.fin q =>
    (if q < 0 then ['-'] else []) ++
      natDigits ((roundNE (|q| * 10 ^ prec)).toNat / 10 ^ prec) ++
      (if prec = 0 then [] else '.' :: fracDigits prec ((roundNE (|q| * 10 ^ prec)).toNat % 10 ^ prec))
  | FP.inf s => (if s then ['-'] else []) ++ ['i', 'n', 'f']
  | FP.nan => ['n', 'a', 'n']

/-- The literal that starts every title. -/
def titleHead : String := "OpenGL Test | fps="

/-- Lines 266 to 269: the text built in the string stream `title`. -/
def frameTitle (total_frame_time_ns : Int) : String :=
  titleHead ++ String.mk (formatFixed 3 (fpsValue total_frame_time_ns))

/-- The text is the title prefix, one or more decimal digits, a dot and three decimal
digits. -/
def MatchesFpsPattern (s : String) : Prop :=
  ∃ ip fp : List Char, s.data = titleHead.data ++ ip ++ '.' :: fp ∧ ip ≠ [] ∧
    (∀ c ∈ ip, c.isDigit = true) ∧ fp.length = 3 ∧ ∀ c ∈ fp, c.isDigit = true

/-! ## The calls of `main` and their outcomes -/

/-- The three shader stages. -/
inductive Stage
  | vertex
  | geometry
  | fragment
  deriving DecidableEq

/-- One call out of the program: into GLFW, glad, OpenGL, the clock or `std::cout`, with the
arguments that matter here. -/
inductive Call
  | glfwInit
  | glfwWindowHint (hint value : String)
  | glfwCreateWindow (width height : Nat) (title : String)
  | cout (line : String)
  | glfwTerminate
  | glfwMakeContextCurrent
  | glfwSetFramebufferSizeCallback
  | gladLoadGLLoader
  | glCreateShader (stage : Stage)
  | glShaderSource (stage : Stage)
  | glCompileShader (stage : Stage)
  | glGetShaderiv (stage : Stage)
  | glGetShaderInfoLog (stage : Stage)
  | glCreateProgram
  | glAttachShader (stage : Stage)
  | glLinkProgram
  | glGetProgramiv
  | glGetProgramInfoLog
  | glDeleteShader (stage : Stage)
  | glGenVertexArrays
  | glGenBuffers
  | glBindVertexArray (bound : Bool)
  | glBindBuffer (bound : Bool)
  | glBufferData (bytes : Nat) (data : List (Option FP))
  | glVertexAttribPointer (index size strideBytes pointerBytes : Nat)
  | glEnableVertexAttribArray (index : Nat)
  | glfwWindowShouldClose
  | clockNow
  | glfwGetKey
  | glfwSetWindowShouldClose (value : Bool)
  | glClearColor
  | glClear
  | glUseProgram
  | glGetUniformLocation (name : String)
  | glUniform1f
  | glDrawArrays (first count : Nat)
  | glfwSwapBuffers
  | glfwPollEvents
  | glfwSetWindowTitle (title : String)
  | glDeleteVertexArrays
  | glDeleteBuffers
  deriving DecidableEq

/-- The call fetches an info log or prints a line. -/
def Call.isDiagnostic : Call → Bool
  | Call.cout _ => true
  | Call.glGetShaderInfoLog _ => true
  | Call.glGetProgramInfoLog => true
  | _ => false

/-- The lines printed by the calls of a trace, in order. -/
def printed : List Call → List String
  | [] => []
  | Call.cout line :: rest => line :: printed rest
  | _ :: rest => printed rest

/-- What the outside world does in one iteration of the render loop. -/
structure FrameEvents where
  escapePressed : Bool
  closeRequested : Bool
  elapsedNs : Int

/-- The outcomes of the external calls of one run: the build (`apple`, `sizeofFloat`), whether
the window was created and the GL functions loaded, the compile and link status flags with the
info logs, and the events of the successive iterations of the render loop. -/
structure Oracle where
  apple : Bool
  sizeofFloat : Nat
  windowCreated : Bool
  gladLoaded : Bool
  vertexCompiled : Bool
  geometryCompiled : Bool
  fragmentCompiled : Bool
  linked : Bool
  vertexLog : String
  geometryLog : String
  fragmentLog : String
  linkLog : String
  frames : List FrameEvents

/-- The state of the window that the program reads and writes. -/
structure Window where
  shouldClose : Bool
  title : String

/-- The function `processInput`: the new window state and the calls made. -/
def processInput (escapePressed : Bool) (window : Window) : Window × List Call :=
  if escapePressed then
    ({ window with shouldClose := true }, [Call.glfwGetKey, Call.glfwSetWindowShouldClose true])
  else (window, [Call.glfwGetKey])

/-- Effect of `glfwPollEvents` on the window: a close request sets the close flag. -/
def pollEvents (closeRequested : Bool) (window : Window) : Window :=
  if closeRequested then { window with shouldClose := true } else window

/-- The body of the render loop (lines 238 to 270). -/
def frame (ev : FrameEvents) (window : Window) : Window × List Call :=
  ({ pollEvents ev.closeRequested (processInput ev.escapePressed window).1 with
      title := frameTitle ev.elapsedNs },
   [Call.clockNow] ++ (processInput ev.escapePressed window).2 ++
   [Call.glClearColor, Call.glClear, Call.glUseProgram, Call.glGetUniformLocation "line_width",
    Call.glUniform1f, Call.glBindVertexArray true, Call.glDrawArrays 0 drawCount,
    Call.glfwSwapBuffers, Call.glfwPollEvents, Call.clockNow,
    Call.glfwSetWindowTitle (frameTitle ev.elapsedNs)])

/-- The loop `while (!glfwWindowShouldClose(window))`, fed with the events of its iterations:
the window and the calls made when it ends, `none` when the events run out before it does. -/
def renderLoop : List FrameEvents → Window → Option (Window × List Call)
  | [], window =>
    if window.shouldClose then some (window, [Call.glfwWindowShouldClose]) else none
  | ev :: rest, window =>
    if window.shouldClose then some (window, [Call.glfwWindowShouldClose])
    else
      match renderLoop rest (frame ev window).1 with
      | some (w, calls) => some (w, Call.glfwWindowShouldClose :: (frame ev window).2 ++ calls)
      | none => none

/-- The line printed when stage `stage` fails to compile, before the info log. -/
def compileFailedLine : Stage → String
  | Stage.vertex => "ERROR::SHADER::VERTEX::COMPILATION_FAILED\n"
  | Stage.geometry => "ERROR::SHADER::GEOMETRY::COMPILATION_FAILED\n"
  | Stage.fragment => "ERROR::SHADER::FRAGMENT::COMPILATION_FAILED\n"

/-- The line printed when the program fails to link, before the info log. -/
def linkFailedLine : String := "ERROR::SHADER::PROGRAM::LINKING_FAILED\n"

/-- Create, compile and check one shader stage (lines 100 to 109, 112 to 121, 124 to 133). -/
def compileStage (stage : Stage) (success : Bool) (infoLog : String) : List Call :=
  [Call.glCreateShader stage, Call.glShaderSource stage, Call.glCompileShader stage,
   Call.glGetShaderiv stage] ++
  if success then []
  else [Call.glGetShaderInfoLog stage, Call.cout (compileFailedLine stage ++ infoLog)]

/-- Create, link and check the program, then delete the stages (lines 135 to 148). -/
def linkProgram (success : Bool) (infoLog : String) : List Call :=
  [Call.glCreateProgram, Call.glAttachShader Stage.vertex, Call.glAttachShader Stage.geometry,
   Call.glAttachShader Stage.fragment, Call.glLinkProgram, Call.glGetProgramiv] ++
  (if success then []
   else [Call.glGetProgramInfoLog, Call.cout (linkFailedLine ++ infoLog)]) ++
  [Call.glDeleteShader Stage.vertex, Call.glDeleteShader Stage.geometry,
   Call.glDeleteShader Stage.fragment]

/-- The setting `const unsigned int SCR_WIDTH = 1920`. -/
def SCR_WIDTH : Nat := 1920

/-- The setting `const unsigned int SCR_HEIGHT = 1080`. -/
def SCR_HEIGHT : Nat := 1080

/-- Lines 65 to 76: initialise GLFW and ask for the window. -/
def createWindowCalls (apple : Bool) : List Call :=
  [Call.glfwInit, Call.glfwWindowHint "GLFW_CONTEXT_VERSION_MAJOR" "3",
   Call.glfwWindowHint "GLFW_CONTEXT_VERSION_MINOR" "3",
   Call.glfwWindowHint "GLFW_OPENGL_PROFILE" "GLFW_OPENGL_CORE_PROFILE"] ++
  (if apple then [Call.glfwWindowHint "GLFW_OPENGL_FORWARD_COMPAT" "GL_TRUE"] else []) ++
  [Call.glfwCreateWindow SCR_WIDTH SCR_HEIGHT "GLTest"]

/-- Lines 207 to 227: create the vertex array and buffer, upload, describe the layout. -/
def uploadCalls (sizeofFloat : Nat) (vertices : FloatBuf) : List Call :=
  [Call.glGenVertexArrays, Call.glGenBuffers, Call.glBindVertexArray true,
   Call.glBindBuffer true,
   Call.glBufferData (uploadBytes sizeofFloat) ((List.range vertices.size).map vertices.cell),
   Call.glVertexAttribPointer 0 attribSize (strideBytes sizeofFloat) 0,
   Call.glEnableVertexAttribArray 0,
   Call.glVertexAttribPointer 1 attribSize (strideBytes sizeofFloat) (colorOffsetBytes sizeofFloat),
   Call.glEnableVertexAttribArray 1,
   Call.glBindBuffer false, Call.glBindVertexArray false]

/-- Lines 275 to 280: the calls after the render loop. -/
def teardownCalls : List Call :=
  [Call.glDeleteVertexArrays, Call.glDeleteBuffers, Call.glfwTerminate]

/-- Lines 83 to 227, once the window exists and the GL functions are loaded: every call made
before the render loop is entered. -/
def setupCalls (o : Oracle) (vertices : FloatBuf) : List Call :=
  createWindowCalls o.apple ++
  [Call.glfwMakeContextCurrent, Call.glfwSetFramebufferSizeCallback, Call.gladLoadGLLoader] ++
  compileStage Stage.vertex o.vertexCompiled o.vertexLog ++
  compileStage Stage.geometry o.geometryCompiled o.geometryLog ++
  compileStage Stage.fragment o.fragmentCompiled o.fragmentLog ++
  linkProgram o.linked o.linkLog ++
  uploadCalls o.sizeofFloat vertices

/-- The window as `glfwCreateWindow` returns it. -/
def initialWindow : Window := { shouldClose := false, title := "GLTest" }

/-- The function `main`: its return value and the calls it made, in order.  There is no
result when the generator stores outside the allocation or when the events of the oracle run
out while the render loop is still going. -/
def main (o : Oracle) : Option (Int × List Call) :=
  if o.windowCreated = false then
    some (-1, createWindowCalls o.apple ++
      [Call.cout "Failed to create GLFW window", Call.glfwTerminate])
  else if o.gladLoaded = false then
    some (-1, createWindowCalls o.apple ++
      [Call.glfwMakeContextCurrent, Call.glfwSetFramebufferSizeCallback, Call.gladLoadGLLoader,
       Call.cout "Failed to initialize GLAD"])
  else
    match gridVertices with
    | none => none
    | some vertices =>
      match renderLoop o.frames initialWindow with
      | none => none
      | some (_, loopCalls) => some (0, setupCalls o vertices ++ loopCalls ++ teardownCalls)

/-! ## Helper definitions for the proofs on `main` -/

/-- The oracle `o` with every compile and link status set to success. -/
def allCompiled (o : Oracle) : Oracle :=
  { o with vertexCompiled := true, geometryCompiled := true, fragmentCompiled := true,
           linked := true }

/-- The lines that the failed compile and link steps of `o` print, in order. -/
def shaderLines (o : Oracle) : List String :=
  (if o.vertexCompiled then [] else [compileFailedLine Stage.vertex ++ o.vertexLog]) ++
  (if o.geometryCompiled then [] else [compileFailedLine Stage.geometry ++ o.geometryLog]) ++
  (if o.fragmentCompiled then [] else [compileFailedLine Stage.fragment ++ o.fragmentLog]) ++
  (if o.linked then [] else [linkFailedLine ++ o.linkLog])

/-- The calls of one iteration of the render loop, after the loop condition. -/
def frameCalls (ev : FrameEvents) : List Call :=
  [Call.clockNow, Call.glfwGetKey] ++
  (if ev.escapePressed then [Call.glfwSetWindowShouldClose true] else []) ++
  [Call.glClearColor, Call.glClear, Call.glUseProgram, Call.glGetUniformLocation "line_width",
   Call.glUniform1f, Call.glBindVertexArray true, Call.glDrawArrays 0 drawCount,
   Call.glfwSwapBuffers, Call.glfwPollEvents, Call.clockNow,
   Call.glfwSetWindowTitle (frameTitle ev.elapsedNs)]

/-- The calls of the iterations fed with `evs`, each with its loop condition. -/
def iterationCalls : List FrameEvents → List Call
  | [] => []
  | ev :: rest => Call.glfwWindowShouldClose :: frameCalls ev ++ iterationCalls rest

/-- The window after the iterations fed with `evs`. -/
def windowAfter : List FrameEvents → Window → Window
  | [], w => w
  | ev :: rest, w => windowAfter rest (frame ev w).1

/-! ## Helper definitions for the proofs on the generator -/

/-- Assign the values `vals` to consecutive cells from `base` on. -/
def storeAll (b : FloatBuf) (base : Nat) : List FP → Option FloatBuf
  | [] => some b
  | v :: vs => (b.store base v).bind (fun b1 => storeAll b1 (base+1) vs)

/-- The twelve floats of horizontal line `i`, in storage order. -/
def hRow (i : Nat) : List FP :=
  [FP.fin (-1), lineCoord i, FP.fin 0, FP.fin (1/2), FP.fin (1/2), FP.fin (1/2),
   FP.fin 1, lineCoord i, FP.fin 0, FP.fin (1/2), FP.fin (1/2), FP.fin (1/2)]

/-- The twelve floats of vertical line `i`, in storage order. -/
def vRow (i : Nat) : List FP :=
  [lineCoord i, FP.fin (-1), FP.fin 0, FP.fin (1/2), FP.fin (1/2), FP.fin (1/2),
   lineCoord i, FP.fin 1, FP.fin 0, FP.fin (1/2), FP.fin (1/2), FP.fin (1/2)]

/-- A loop of 81 rows of twelve floats, written from `base` on, entered with counter `i`. -/
def rowLoop (row : Nat → List FP) (base : Nat) (b : FloatBuf) (i : Nat) : Option FloatBuf :=
  if i ≤ 80 then
    match storeAll b (base + i*12) (row i) with
    | some b1 => rowLoop row base b1 (i+1)
    | none => none
  else some b
termination_by 81 - i

/-- The index written for float `j` of line `i` of family `f` (0 horizontal, 1 vertical). -/
def writeIndex (t : Fin 2 × Fin 81 × Fin 12) : Fin 1944 :=
  ⟨t.1.val * 972 + 12 * t.2.1.val + t.2.2.val, by
    have h1 := t.1.isLt
    have h2 := t.2.1.isLt
    have h3 := t.2.2.isLt
    omega⟩

/-- A run on a 4-byte `float` where everything succeeds and escape is pressed in the second of
three frames. -/
def sampleOracle : Oracle :=
  { apple := false, sizeofFloat := 4, windowCreated := true, gladLoaded := true,
    vertexCompiled := true, geometryCompiled := true, fragmentCompiled := true, linked := true,
    vertexLog := "", geometryLog := "", fragmentLog := "", linkLog := "",
    frames := [{ escapePressed := false, closeRequested := false, elapsedNs := 16666667 },
               { escapePressed := true, closeRequested := false, elapsedNs := 16000000 },
               { escapePressed := false, closeRequested := false, elapsedNs := 1 }] }

/-! ## Helper lemmas on the generator -/

theorem hBody_eq_storeAll (b : FloatBuf) (i : Nat) :
    hBody b i = storeAll b (0 + i*12) (hRow i) := by
  simp only [hBody, hRow, storeAll, bind, Nat.add_assoc, Nat.reduceAdd, Nat.zero_add,
    Option.bind_some]

theorem vBody_eq_storeAll (b : FloatBuf) (offset i : Nat) :
    vBody b offset i = storeAll b (offset + i*12) (vRow i) := by
  simp only [vBody, vRow, storeAll, bind, Nat.add_assoc, Nat.reduceAdd, Option.bind_some]

theorem hLoop_eq_rowLoop : ∀ (n i : Nat) (b : FloatBuf), n = 81 - i →
    hLoop b i = rowLoop hRow 0 b i := by
  intro n
  induction n with
  | zero =>
    intro i b h
    have hi : ¬ i ≤ 80 := by omega
    rw [hLoop, rowLoop, if_neg hi, if_neg hi]
  | succ n ih =>
    intro i b h
    have hi : i ≤ 80 := by omega
    rw [hLoop, rowLoop, if_pos hi, if_pos hi, hBody_eq_storeAll]
    cases storeAll b (0 + i*12) (hRow i) with
    | none => rfl
    | some b1 => exact ih (i+1) b1 (by omega)

theorem vLoop_eq_rowLoop (offset : Nat) : ∀ (n i : Nat) (b : FloatBuf), n = 81 - i →
    vLoop b offset i = rowLoop vRow offset b i := by
  intro n
  induction n with
  | zero =>
    intro i b h
    have hi : ¬ i ≤ 80 := by omega
    rw [vLoop, rowLoop, if_neg hi, if_neg hi]
  | succ n ih =>
    intro i b h
    have hi : i ≤ 80 := by omega
    rw [vLoop, rowLoop, if_pos hi, if_pos hi, vBody_eq_storeAll]
    cases storeAll b (offset + i*12) (vRow i) with
    | none => rfl
    | some b1 => exact ih (i+1) b1 (by omega)

theorem storeAll_spec (vals : List FP) : ∀ (b : FloatBuf) (base : Nat),
    base + vals.length ≤ b.size →
    ∃ b1, storeAll b base vals = some b1 ∧ b1.size = b.size ∧
      b1.writes = b.writes ++ List.range' base vals.length ∧
      ∀ idx, b1.cell idx =
        if base ≤ idx ∧ idx < base + vals.length then vals[idx - base]? else b.cell idx := by
  induction vals with
  | nil =>
    intro b base _
    refine ⟨b, rfl, rfl, by simp, ?_⟩
    intro idx
    have : ¬ (base ≤ idx ∧ idx < base + ([] : List FP).length) := by simp
    rw [if_neg this]
  | cons v vs ih =>
    intro b base h
    simp only [List.length_cons] at h
    have hb : base < b.size := by omega
    obtain ⟨b2, h2, hs, hw, hc⟩ := ih
      { size := b.size, cell := Function.update b.cell base (some v), writes := b.writes ++ [base] }
      (base+1) (by simp only; omega)
    refine ⟨b2, ?_, hs, ?_, ?_⟩
    · simp only [storeAll, FloatBuf.store, if_pos hb, Option.some_bind]
      exact h2
    · rw [hw]
      simp [List.range'_succ]
    · intro idx
      rw [hc idx]
      simp only [List.length_cons]
      by_cases h1 : idx = base
      · subst h1
        simp
      · by_cases h3 : base + 1 ≤ idx ∧ idx < base + 1 + vs.length
        · have h4 : base ≤ idx ∧ idx < base + (vs.length + 1) := by omega
          rw [if_pos h3, if_pos h4]
          have : idx - base = (idx - (base + 1)) + 1 := by omega
          rw [this, List.getElem?_cons_succ]
        · have h4 : ¬ (base ≤ idx ∧ idx < base + (vs.length + 1)) := by omega
          rw [if_neg h3, if_neg h4, Function.update_noteq h1]

theorem rowLoop_spec (row : Nat → List FP) (base : Nat) (hrow : ∀ k, (row k).length = 12) :
    ∀ (n i : Nat) (b : FloatBuf), n = 81 - i → i ≤ 81 → base + 972 ≤ b.size →
    ∃ b1, rowLoop row base b i = some b1 ∧ b1.size = b.size ∧
      b1.writes = b.writes ++ List.range' (base + 12*i) (12*(81 - i)) ∧
      ∀ idx, b1.cell idx =
        if base + 12*i ≤ idx ∧ idx < base + 972 then (row ((idx - base)/12))[(idx - base) % 12]?
        else b.cell idx := by
  intro n
  induction n with
  | zero =>
    intro i b h hi81 _
    have hi : ¬ i ≤ 80 := by omega
    have h81 : i = 81 := by omega
    subst h81
    refine ⟨b, by rw [rowLoop, if_neg hi], rfl, by simp, ?_⟩
    intro idx
    have : ¬ (base + 12*81 ≤ idx ∧ idx < base + 972) := by omega
    rw [if_neg this]
  | succ n ih =>
    intro i b h _ hsz
    have hi : i ≤ 80 := by omega
    obtain ⟨b2, h2, hs2, hw2, hc2⟩ := storeAll_spec (row i) b (base + i*12)
      (by rw [hrow]; omega)
    obtain ⟨b3, h3, hs3, hw3, hc3⟩ := ih (i+1) b2 (by omega) (by omega) (by omega)
    refine ⟨b3, ?_, by omega, ?_, ?_⟩
    · rw [rowLoop, if_pos hi, h2]
      exact h3
    · rw [hw3, hw2, hrow, List.append_assoc]
      congr 1
      have e1 : base + 12*(i+1) = (base + i*12) + 12 := by omega
      have e2 : 12*(81 - i) = 12*(81 - (i+1)) + 12 := by omega
      have e3 : base + 12*i = base + i*12 := by omega
      rw [e1, e2, e3, List.range'_append_1]
    · intro idx
      rw [hc3 idx, hc2 idx, hrow]
      by_cases c1 : base + 12*(i+1) ≤ idx ∧ idx < base + 972
      · have c2 : base + 12*i ≤ idx ∧ idx < base + 972 := by omega
        rw [if_pos c1, if_pos c2]
      · rw [if_neg c1]
        by_cases c3 : base + i*12 ≤ idx ∧ idx < base + i*12 + 12
        · have c2 : base + 12*i ≤ idx ∧ idx < base + 972 := by omega
          have e1 : (idx - base)/12 = i := by omega
          have e2 : (idx - base) % 12 = idx - (base + i*12) := by omega
          rw [if_pos c3, if_pos c2, e1, e2]
        · have c2 : ¬ (base + 12*i ≤ idx ∧ idx < base + 972) := by omega
          rw [if_neg c3, if_neg c2]

theorem hRow_length (k : Nat) : (hRow k).length = 12 := rfl

theorem vRow_length (k : Nat) : (vRow k).length = 12 := rfl

/-- The first loop returns, and this is the array it leaves. -/
theorem afterHorizontal_spec :
    ∃ b1, afterHorizontal = some b1 ∧ b1.size = 1944 ∧ b1.writes = List.range' 0 972 ∧
      ∀ idx, b1.cell idx = if idx < 972 then (hRow (idx/12))[idx % 12]? else none := by
  obtain ⟨b1, h1, hs, hw, hc⟩ := rowLoop_spec hRow 0 hRow_length 81 0 (newFloatArray hostLen)
    rfl (by omega) (by simp [newFloatArray, hostLen])
  refine ⟨b1, ?_, ?_, ?_, ?_⟩
  · rw [afterHorizontal, hLoop_eq_rowLoop 81 0 _ rfl]
    exact h1
  · rw [hs]; rfl
  · rw [hw]; simp [newFloatArray]
  · intro idx
    rw [hc idx]
    simp [newFloatArray]

/-- Both loops return, and this is the array they leave. -/
theorem gridVertices_spec :
    ∃ b1 b2, afterHorizontal = some b1 ∧ gridVertices = some b2 ∧ b2.size = 1944 ∧
      b2.writes = List.range' 0 1944 ∧
      (∀ idx, b1.cell idx = if idx < 972 then (hRow (idx/12))[idx % 12]? else none) ∧
      ∀ idx, b2.cell idx =
        if idx < 972 then (hRow (idx/12))[idx % 12]?
        else if idx < 1944 then (vRow ((idx - 972)/12))[(idx - 972) % 12]? else none := by
  obtain ⟨b1, h1, hs1, hw1, hc1⟩ := afterHorizontal_spec
  obtain ⟨b2, h2, hs2, hw2, hc2⟩ := rowLoop_spec vRow vOffset vRow_length 81 0 b1
    rfl (by omega) (by rw [hs1]; simp [vOffset])
  refine ⟨b1, b2, h1, ?_, by omega, ?_, hc1, ?_⟩
  · rw [gridVertices, h1]
    simp only
    rw [vLoop_eq_rowLoop vOffset 81 0 _ rfl]
    exact h2
  · rw [hw2, hw1]
    simp only [vOffset, Nat.mul_zero, Nat.add_zero, Nat.sub_zero, Nat.reduceMul]
    exact List.range'_append_1 0 972 972
  · intro idx
    rw [hc2 idx, hc1 idx]
    simp only [vOffset, Nat.mul_zero, Nat.add_zero, Nat.reduceMul, Nat.reduceAdd]
    by_cases c1 : idx < 972
    · have c2 : ¬ (972 ≤ idx ∧ idx < 1944) := by omega
      rw [if_neg c2, if_pos c1, if_pos c1]
    · by_cases c3 : idx < 1944
      · have c2 : 972 ≤ idx ∧ idx < 1944 := by omega
        rw [if_pos c2, if_neg c1, if_pos c3]
      · have c2 : ¬ (972 ≤ idx ∧ idx < 1944) := by omega
        rw [if_neg c2, if_neg c1, if_neg c1, if_neg c3]

/-! ## The claims on the layout of the grid -/

/-- Cell by cell, what the two loops leave: line `i`, float `j`. -/
theorem grid_cells :
    ∃ b1 b2, afterHorizontal = some b1 ∧ gridVertices = some b2 ∧
      b1.size = 1944 ∧ b2.size = 1944 ∧
      b1.writes = List.range' 0 972 ∧ b2.writes = List.range' 0 1944 ∧
      (∀ i j, i ≤ 80 → j < 12 →
        b1.cell (12*i + j) = (hRow i)[j]? ∧ b2.cell (12*i + j) = (hRow i)[j]? ∧
        b2.cell (972 + 12*i + j) = (vRow i)[j]?) ∧
      (∀ idx, idx < 972 → b2.cell idx = b1.cell idx) ∧
      (∀ idx, 972 ≤ idx → b1.cell idx = none) := by
  obtain ⟨b1, b2, h1, h2, hs2, hw2, hc1, hc2⟩ := gridVertices_spec
  obtain ⟨b1', h1', hs1, hw1, _⟩ := afterHorizontal_spec
  have e : b1' = b1 := Option.some.inj (h1'.symm.trans h1)
  subst e
  refine ⟨b1', b2, h1, h2, hs1, hs2, hw1, hw2, ?_, ?_, ?_⟩
  · intro i j hi hj
    have a1 : 12*i + j < 972 := by omega
    have a2 : (12*i + j)/12 = i := by omega
    have a3 : (12*i + j) % 12 = j := by omega
    have a4 : ¬ (972 + 12*i + j < 972) := by omega
    have a5 : 972 + 12*i + j < 1944 := by omega
    have a6 : (972 + 12*i + j - 972)/12 = i := by omega
    have a7 : (972 + 12*i + j - 972) % 12 = j := by omega
    refine ⟨?_, ?_, ?_⟩
    · rw [hc1, if_pos a1, a2, a3]
    · rw [hc2, if_pos a1, a2, a3]
    · rw [hc2, if_neg a4, if_pos a5, a6, a7]
  · intro idx h
    rw [hc1, hc2, if_pos h, if_pos h]
  · intro idx h
    have : ¬ idx < 972 := by omega
    rw [hc1, if_neg this]

/-- Every float of the final array, by family, line and position in the line. -/
theorem final_cell (b1 b2 : FloatBuf)
    (hc : ∀ i j, i ≤ 80 → j < 12 →
        b1.cell (12*i + j) = (hRow i)[j]? ∧ b2.cell (12*i + j) = (hRow i)[j]? ∧
        b2.cell (972 + 12*i + j) = (vRow i)[j]?)
    (idx : Nat) (h : idx < 1944) :
    b2.cell idx = (hRow ((idx % 972)/12))[idx % 12]? ∨
    b2.cell idx = (vRow ((idx % 972)/12))[idx % 12]? := by
  by_cases c : idx < 972
  · left
    have := (hc (idx/12) (idx % 12) (by omega) (by omega)).2.1
    have e : 12*(idx/12) + idx % 12 = idx := by omega
    rw [e] at this
    have e2 : idx % 972 / 12 = idx / 12 := by omega
    rw [e2]; exact this
  · right
    have := (hc ((idx - 972)/12) (idx % 12) (by omega) (by omega)).2.2
    have e : 972 + 12*((idx - 972)/12) + idx % 12 = idx := by omega
    rw [e] at this
    have e2 : idx % 972 / 12 = (idx - 972) / 12 := by omega
    rw [e2]; exact this

/-- C3: for every vertex `k < 324` of the final array the colour attribute (floats `6*k+3`,
`6*k+4`, `6*k+5`) is `(1/2, 1/2, 1/2)`. -/
theorem vertex_colors (k : Nat) (hk : k < 324) :
    ∃ b, gridVertices = some b ∧
      b.cell (6*k + 3) = some (FP.fin (1/2)) ∧ b.cell (6*k + 4) = some (FP.fin (1/2)) ∧
      b.cell (6*k + 5) = some (FP.fin (1/2)) ∧
      colorComp b k 0 = some (FP.fin (1/2)) ∧ colorComp b k 1 = some (FP.fin (1/2)) ∧
      colorComp b k 2 = some (FP.fin (1/2)) := by
  obtain ⟨b1, b2, _, h2, _, _, _, _, hc, _, _⟩ := grid_cells
  have key : ∀ c, c < 3 → b2.cell (6*k + 3 + c) = some (FP.fin (1/2)) := by
    intro c hc3
    have hm : (6*k + 3 + c) % 12 = 3 ∨ (6*k + 3 + c) % 12 = 4 ∨ (6*k + 3 + c) % 12 = 5 ∨
        (6*k + 3 + c) % 12 = 9 ∨ (6*k + 3 + c) % 12 = 10 ∨ (6*k + 3 + c) % 12 = 11 := by omega
    rcases final_cell b1 b2 hc (6*k + 3 + c) (by omega) with h | h <;>
      rcases hm with m | m | m | m | m | m <;> rw [h, m] <;> rfl
  simp only [colorComp, strideFloats, colorOffsetFloats]
  exact ⟨b2, h2, key 0 (by omega), key 1 (by omega), key 2 (by omega),
    key 0 (by omega), key 1 (by omega), key 2 (by omega)⟩

/-- C3 at the last vertex, `k = 323`. -/
theorem vertex_colors_witness :
    ∃ b, gridVertices = some b ∧
      b.cell (6*323 + 3) = some (FP.fin (1/2)) ∧ b.cell (6*323 + 4) = some (FP.fin (1/2)) ∧
      b.cell (6*323 + 5) = some (FP.fin (1/2)) ∧
      colorComp b 323 0 = some (FP.fin (1/2)) ∧ colorComp b 323 1 = some (FP.fin (1/2)) ∧
      colorComp b 323 2 = some (FP.fin (1/2)) :=
  vertex_colors 323 (by decide)


theorem drawFetches_iff (idx : Nat) : drawFetches idx ↔ idx < hostLen := by
  simp only [drawFetches, drawCount, attribSize, strideFloats, posOffsetFloats,
    colorOffsetFloats, hostLen]
  constructor
  · rintro ⟨k, c, hk, hc, h | h⟩ <;> omega
  · intro h
    by_cases c3 : idx % 6 < 3
    · exact ⟨idx / 6, idx % 6, by omega, c3, Or.inl (by omega)⟩
    · exact ⟨idx / 6, idx % 6 - 3, by omega, by omega, Or.inr (by omega)⟩

theorem drawFetchesByte_iff (sz off : Nat) : drawFetchesByte sz off ↔ off < uploadBytes sz := by
  simp only [drawFetchesByte, drawCount, attribSize, strideBytes, colorOffsetBytes, uploadBytes]
  constructor
  · rintro ⟨k, c, b, hk, hc, hb, h | h⟩
    · have e : off = sz * (6*k + c) + b := by rw [h]; ring
      have : sz * (6*k + c) + b < sz * (6*k + c + 1) := by rw [Nat.mul_succ]; omega
      have : sz * (6*k + c + 1) ≤ sz * 1944 := Nat.mul_le_mul_left _ (by omega)
      omega
    · have e : off = sz * (6*k + 3 + c) + b := by rw [h]; ring
      have : sz * (6*k + 3 + c) + b < sz * (6*k + 3 + c + 1) := by rw [Nat.mul_succ]; omega
      have : sz * (6*k + 3 + c + 1) ≤ sz * 1944 := Nat.mul_le_mul_left _ (by omega)
      omega
  · intro h
    have hsz : 0 < sz := by
      rcases Nat.eq_zero_or_pos sz with h0 | h0
      · subst h0; simp at h
      · exact h0
    have hq : off / sz < 1944 := by
      rw [Nat.div_lt_iff_lt_mul hsz]; omega
    have hb : off % sz < sz := Nat.mod_lt _ hsz
    have hd : sz * (off / sz) + off % sz = off := Nat.div_add_mod off sz
    by_cases c3 : (off / sz) % 6 < 3
    · refine ⟨off / sz / 6, (off / sz) % 6, off % sz, by omega, c3, hb, Or.inl ?_⟩
      have e : off / sz = 6 * (off / sz / 6) + (off / sz) % 6 := by omega
      calc off = sz * (off / sz) + off % sz := hd.symm
        _ = sz * (6 * (off / sz / 6) + (off / sz) % 6) + off % sz := by rw [← e]
        _ = _ := by ring
    · refine ⟨off / sz / 6, (off / sz) % 6 - 3, off % sz, by omega, by omega, hb, Or.inr ?_⟩
      have e : off / sz = 6 * (off / sz / 6) + 3 + ((off / sz) % 6 - 3) := by omega
      calc off = sz * (off / sz) + off % sz := hd.symm
        _ = sz * (6 * (off / sz / 6) + 3 + ((off / sz) % 6 - 3)) + off % sz := by rw [← e]
        _ = _ := by ring

/-- C4: the host array has `81*2*6*2 = 1944` floats, the byte count given to `glBufferData` is
`1944 * sizeof(float)`, the draw count `81*4 = 324` times the 6-float stride is 1944, and the
floats (and bytes) fetched by the draw call are exactly those of the uploaded array. -/
theorem sizes_agree (sizeofFloat : Nat) :
    hostLen = 1944 ∧ uploadBytes sizeofFloat = 1944 * sizeofFloat ∧
    uploadBytes sizeofFloat = hostLen * sizeofFloat ∧
    drawCount = 324 ∧ drawCount * strideFloats = 1944 ∧
    drawCount * strideBytes sizeofFloat = uploadBytes sizeofFloat ∧
    (∃ b, gridVertices = some b ∧ b.size = hostLen ∧
      ((List.range b.size).map b.cell).length = 1944 ∧
      Call.glBufferData (1944 * sizeofFloat) ((List.range b.size).map b.cell) ∈
        uploadCalls sizeofFloat b) ∧
    (∀ ev w, Call.glDrawArrays 0 324 ∈ (frame ev w).2) ∧
    (∀ idx, drawFetches idx ↔ idx < hostLen) ∧
    ∀ off, drawFetchesByte sizeofFloat off ↔ off < uploadBytes sizeofFloat := by
  obtain ⟨_, b2, _, h2, _, hs2, _⟩ := grid_cells
  have hu : uploadBytes sizeofFloat = 1944 * sizeofFloat := by
    simp only [uploadBytes]; omega
  refine ⟨rfl, hu, ?_, rfl, rfl, ?_, ⟨b2, h2, hs2, ?_, ?_⟩, ?_, drawFetches_iff,
    drawFetchesByte_iff sizeofFloat⟩
  · simp only [uploadBytes, hostLen]; omega
  · simp only [uploadBytes, drawCount, strideBytes]; omega
  · simp [hs2]
  · rw [← hu]
    simp [uploadCalls]
  · intro ev w
    simp only [frame, processInput, drawCount]
    cases ev.escapePressed <;> simp

theorem body_in_bounds (row : List FP) (b : FloatBuf) (base : Nat)
    (h : base + row.length ≤ b.size) : (storeAll b base row).isSome = true := by
  obtain ⟨b1, h1, _⟩ := storeAll_spec row b base h
  rw [h1]; rfl

/-- C5: every index written by either loop, `i*12 + j` and `972 + i*12 + j` with `i ≤ 80` and
`j ≤ 11`, is below the allocated length 1944; with checked stores neither loop body fails on
an array of that length, and the whole generator returns an array. -/
theorem generator_in_bounds (i j : Nat) (hi : i ≤ 80) (hj : j ≤ 11) :
    i*12 + j < hostLen ∧ vOffset + i*12 + j < hostLen ∧
    (∀ b : FloatBuf, b.size = hostLen →
      (hBody b i).isSome = true ∧ (vBody b vOffset i).isSome = true) ∧
    ∃ b1 b2, afterHorizontal = some b1 ∧ gridVertices = some b2 ∧ b2.size = hostLen ∧
      (i*12 + j ∈ b2.writes ∧ vOffset + i*12 + j ∈ b2.writes) ∧
      ∀ idx ∈ b2.writes, idx < b2.size := by
  obtain ⟨b1, b2, h1, h2, _, hs2, _, hw2, _⟩ := grid_cells
  simp only [hostLen, vOffset] at *
  refine ⟨by omega, by omega, ?_, b1, b2, h1, h2, hs2, ?_, ?_⟩
  · intro b hb
    rw [hBody_eq_storeAll, vBody_eq_storeAll]
    exact ⟨body_in_bounds _ _ _ (by rw [hRow_length]; omega),
      body_in_bounds _ _ _ (by rw [vRow_length]; omega)⟩
  · rw [hw2]
    simp only [List.mem_range'_1]
    omega
  · intro idx hidx
    rw [hw2] at hidx
    simp only [List.mem_range'_1] at hidx
    omega

/-- C5 at the last float of either family, `i = 80` and `j = 11`. -/
theorem generator_in_bounds_witness :
    80*12 + 11 < hostLen ∧ vOffset + 80*12 + 11 < hostLen ∧
    (∀ b : FloatBuf, b.size = hostLen →
      (hBody b 80).isSome = true ∧ (vBody b vOffset 80).isSome = true) ∧
    ∃ b1 b2, afterHorizontal = some b1 ∧ gridVertices = some b2 ∧ b2.size = hostLen ∧
      (80*12 + 11 ∈ b2.writes ∧ vOffset + 80*12 + 11 ∈ b2.writes) ∧
      ∀ idx ∈ b2.writes, idx < b2.size :=
  generator_in_bounds 80 11 (by decide) (by decide)

theorem writeIndex_bijective : Function.Bijective writeIndex := by
  constructor
  · rintro ⟨⟨f, hf⟩, ⟨i, hi⟩, ⟨j, hj⟩⟩ ⟨⟨f', hf'⟩, ⟨i', hi'⟩, ⟨j', hj'⟩⟩ h
    simp only [writeIndex, Fin.mk.injEq] at h
    simp only [Prod.mk.injEq, Fin.mk.injEq]
    omega
  · rintro ⟨idx, hidx⟩
    refine ⟨(⟨idx / 972, by omega⟩, ⟨(idx % 972) / 12, by omega⟩, ⟨idx % 12, by omega⟩), ?_⟩
    simp only [writeIndex, Fin.mk.injEq]
    omega

/-- C10: the two loops write every index `0..1943` exactly once (the index map from family,
line and position is a bijection onto `0..1943`), so every float of the array holds a value
when it is uploaded; and the z-coordinate (float `6*k+2`) of every vertex `k < 324` is `0`. -/
theorem buffer_fully_initialised :
    Function.Bijective writeIndex ∧
    ∃ b, gridVertices = some b ∧ b.size = 1944 ∧ b.writes.length = 1944 ∧
      (∀ idx, idx < 1944 → b.writes.count idx = 1 ∧ (b.cell idx).isSome = true) ∧
      (∀ idx, 1944 ≤ idx → b.writes.count idx = 0) ∧
      (∀ t, b.writes.count (writeIndex t).val = 1) ∧
      (∀ x ∈ (List.range b.size).map b.cell, x.isSome = true) ∧
      ∀ k, k < 324 → b.cell (6*k + 2) = some (FP.fin 0) ∧ posComp b k 2 = some (FP.fin 0) := by
  obtain ⟨b1, b2, _, h2, _, hs2, _, hw2, hc, _, _⟩ := grid_cells
  have hcount : ∀ idx, idx < 1944 → b2.writes.count idx = 1 := by
    intro idx h
    rw [hw2]
    exact List.count_eq_one_of_mem (List.nodup_range' 0 1944) (by simp [List.mem_range'_1]; omega)
  have hsome : ∀ idx, idx < 1944 → (b2.cell idx).isSome = true := by
    intro idx h
    rcases final_cell b1 b2 hc idx h with e | e <;> rw [e]
    · have : idx % 12 < (hRow (idx % 972 / 12)).length := by rw [hRow_length]; omega
      rw [List.getElem?_eq_getElem this]; rfl
    · have : idx % 12 < (vRow (idx % 972 / 12)).length := by rw [vRow_length]; omega
      rw [List.getElem?_eq_getElem this]; rfl
  refine ⟨writeIndex_bijective, b2, h2, hs2, by rw [hw2]; simp, ?_, ?_, ?_, ?_, ?_⟩
  · intro idx h
    exact ⟨hcount idx h, hsome idx h⟩
  · intro idx h
    rw [hw2]
    apply List.count_eq_zero_of_not_mem
    simp only [List.mem_range'_1]
    omega
  · intro t
    exact hcount _ (writeIndex t).isLt
  · intro x hx
    obtain ⟨idx, hidx, rfl⟩ := List.mem_map.mp hx
    rw [hs2, List.mem_range] at hidx
    exact hsome idx hidx
  · intro k hk
    have key : b2.cell (6*k + 2) = some (FP.fin 0) := by
      have hm : (6*k + 2) % 12 = 2 ∨ (6*k + 2) % 12 = 8 := by omega
      rcases final_cell b1 b2 hc (6*k + 2) (by omega) with h | h <;>
        rcases hm with m | m <;> rw [h, m] <;> rfl
    exact ⟨key, key⟩

/-! ## Helper lemmas on `main` and the render loop -/

theorem gridVertices_returns : ∃ v, gridVertices = some v := by
  obtain ⟨_, b2, _, h2, _⟩ := grid_cells
  exact ⟨b2, h2⟩

theorem frame_calls (ev : FrameEvents) (w : Window) : (frame ev w).2 = frameCalls ev := by
  simp only [frame, frameCalls, processInput]
  cases ev.escapePressed <;> simp

theorem frame_shouldClose (ev : FrameEvents) (w : Window) :
    (frame ev w).1.shouldClose = (w.shouldClose || ev.escapePressed || ev.closeRequested) := by
  simp only [frame, processInput, pollEvents]
  cases ev.escapePressed <;> cases ev.closeRequested <;> simp

theorem renderLoop_closed (evs : List FrameEvents) (w : Window) (h : w.shouldClose = true) :
    renderLoop evs w = some (w, [Call.glfwWindowShouldClose]) := by
  cases evs <;> simp [renderLoop, h]

theorem renderLoop_open (ev : FrameEvents) (rest : List FrameEvents) (w : Window)
    (h : w.shouldClose = false) :
    renderLoop (ev :: rest) w =
      (renderLoop rest (frame ev w).1).map
        (fun r => (r.1, Call.glfwWindowShouldClose :: frameCalls ev ++ r.2)) := by
  simp only [renderLoop, h, Bool.false_eq_true, if_false, frame_calls]
  cases renderLoop rest (frame ev w).1 <;> rfl

theorem renderLoop_ends (evs : List FrameEvents) :
    ∀ w, (∃ ev ∈ evs, ev.escapePressed = true ∨ ev.closeRequested = true) →
      ∃ r, renderLoop evs w = some r := by
  induction evs with
  | nil => intro w h; obtain ⟨ev, hev, _⟩ := h; cases hev
  | cons e rest ih =>
    intro w h
    cases hw : w.shouldClose with
    | true => exact ⟨_, renderLoop_closed _ w hw⟩
    | false =>
      rw [renderLoop_open e rest w hw]
      have : ∃ r, renderLoop rest (frame e w).1 = some r := by
        obtain ⟨ev, hev, hc⟩ := h
        rcases List.mem_cons.mp hev with h1 | h1
        · subst h1
          refine ⟨_, renderLoop_closed _ _ ?_⟩
          rw [frame_shouldClose, hw]
          rcases hc with hc | hc <;> simp [hc]
        · exact ih _ ⟨ev, h1, hc⟩
      obtain ⟨r, hr⟩ := this
      rw [hr]
      exact ⟨_, rfl⟩

theorem renderLoop_quiet (quiet : List FrameEvents) :
    ∀ (w : Window) (rest : List FrameEvents), w.shouldClose = false →
      (∀ e ∈ quiet, e.escapePressed = false ∧ e.closeRequested = false) →
      (windowAfter quiet w).shouldClose = false ∧
      renderLoop (quiet ++ rest) w =
        (renderLoop rest (windowAfter quiet w)).map
          (fun r => (r.1, iterationCalls quiet ++ r.2)) := by
  induction quiet with
  | nil =>
    intro w rest hw _
    refine ⟨hw, ?_⟩
    simp only [List.nil_append, windowAfter, iterationCalls]
    cases renderLoop rest w <;> rfl
  | cons e quiet ih =>
    intro w rest hw hq
    have he := hq e (List.mem_cons_self _ _)
    have hw1 : (frame e w).1.shouldClose = false := by
      rw [frame_shouldClose, hw, he.1, he.2]; rfl
    obtain ⟨h1, h2⟩ := ih (frame e w).1 rest hw1
      (fun x hx => hq x (List.mem_cons_of_mem _ hx))
    refine ⟨h1, ?_⟩
    rw [List.cons_append, renderLoop_open e _ w hw, h2]
    simp only [windowAfter, iterationCalls]
    cases renderLoop rest (windowAfter quiet (frame e w).1) <;> simp

theorem printed_append (a b : List Call) : printed (a ++ b) = printed a ++ printed b := by
  induction a with
  | nil => rfl
  | cons c a ih => cases c <;> simp [printed, ih]

theorem printed_frameCalls (ev : FrameEvents) : printed (frameCalls ev) = [] := by
  simp only [frameCalls]
  cases ev.escapePressed <;> rfl

theorem printed_renderLoop (evs : List FrameEvents) :
    ∀ w r, renderLoop evs w = some r → printed r.2 = [] := by
  induction evs with
  | nil =>
    intro w r h
    simp only [renderLoop] at h
    split at h
    · cases h; rfl
    · cases h
  | cons e rest ih =>
    intro w r h
    cases hw : w.shouldClose with
    | true =>
      rw [renderLoop_closed _ w hw] at h
      cases h; rfl
    | false =>
      rw [renderLoop_open e rest w hw] at h
      cases h2 : renderLoop rest (frame e w).1 with
      | none => rw [h2] at h; cases h
      | some r2 =>
        rw [h2] at h
        have hr : r = (r2.1, Call.glfwWindowShouldClose :: frameCalls e ++ r2.2) :=
          (Option.some.inj h).symm
        have h3 := ih _ _ h2
        rw [hr]
        show printed ([Call.glfwWindowShouldClose] ++ (frameCalls e ++ r2.2)) = []
        rw [printed_append, printed_append, printed_frameCalls, h3]
        rfl

theorem printed_setupCalls (o : Oracle) (v : FloatBuf) :
    printed (setupCalls o v) = shaderLines o := by
  simp only [setupCalls, shaderLines, createWindowCalls, compileStage, linkProgram, uploadCalls,
    printed_append]
  obtain ⟨apple, sz, wc, gl, vc, gc, fc, lk, vl, gl, fl, ll, fr⟩ := o
  cases apple <;> cases vc <;> cases gc <;> cases fc <;> cases lk <;> rfl

theorem filter_setupCalls (o : Oracle) (v : FloatBuf) :
    (setupCalls o v).filter (fun c => !c.isDiagnostic) =
      (setupCalls (allCompiled o) v).filter (fun c => !c.isDiagnostic) := by
  simp only [setupCalls, allCompiled, createWindowCalls, compileStage, linkProgram, uploadCalls,
    List.filter_append]
  obtain ⟨apple, sz, wc, gl, vc, gc, fc, lk, vl, gl, fl, ll, fr⟩ := o
  cases apple <;> cases vc <;> cases gc <;> cases fc <;> cases lk <;> rfl

theorem main_window_failed (o : Oracle) (h : o.windowCreated = false) :
    main o = some (-1, createWindowCalls o.apple ++
      [Call.cout "Failed to create GLFW window", Call.glfwTerminate]) := by
  simp only [main, h, if_true]

theorem main_glad_failed (o : Oracle) (hw : o.windowCreated = true) (h : o.gladLoaded = false) :
    main o = some (-1, createWindowCalls o.apple ++
      [Call.glfwMakeContextCurrent, Call.glfwSetFramebufferSizeCallback, Call.gladLoadGLLoader,
       Call.cout "Failed to initialize GLAD"]) := by
  simp only [main, hw, h, if_true, Bool.true_eq_false, if_false]

theorem main_running (o : Oracle) (hw : o.windowCreated = true) (hg : o.gladLoaded = true) :
    ∃ v, gridVertices = some v ∧
      main o = (renderLoop o.frames initialWindow).map
        (fun r => ((0 : Int), setupCalls o v ++ r.2 ++ teardownCalls)) := by
  obtain ⟨v, hv⟩ := gridVertices_returns
  refine ⟨v, hv, ?_⟩
  simp only [main, hw, hg, Bool.true_eq_false, if_false, hv]
  cases renderLoop o.frames initialWindow <;> rfl

theorem infix_compileFailed (stage : Stage) (log : String) :
    "COMPILATION_FAILED".data <:+: (compileFailedLine stage ++ log).data := by
  cases stage
  · exact ⟨"ERROR::SHADER::VERTEX::".data, "\n".data ++ log.data, by
      simp [compileFailedLine, String.data_append]⟩
  · exact ⟨"ERROR::SHADER::GEOMETRY::".data, "\n".data ++ log.data, by
      simp [compileFailedLine, String.data_append]⟩
  · exact ⟨"ERROR::SHADER::FRAGMENT::".data, "\n".data ++ log.data, by
      simp [compileFailedLine, String.data_append]⟩

theorem infix_linkFailed (log : String) :
    "LINKING_FAILED".data <:+: (linkFailedLine ++ log).data :=
  ⟨"ERROR::SHADER::PROGRAM::".data, "\n".data ++ log.data, by
    simp [linkFailedLine, String.data_append]⟩

theorem main_rc (o : Oracle) (rc : Int) (calls : List Call) (h : main o = some (rc, calls)) :
    (rc = -1 ↔ (o.windowCreated = false ∨ o.gladLoaded = false)) ∧ (rc = -1 ∨ rc = 0) := by
  cases hw : o.windowCreated with
  | false =>
    rw [main_window_failed o hw] at h
    have e : rc = -1 := (congrArg Prod.fst (Option.some.inj h)).symm
    subst e
    simp
  | true =>
    cases hg : o.gladLoaded with
    | false =>
      rw [main_glad_failed o hw hg] at h
      have e : rc = -1 := (congrArg Prod.fst (Option.some.inj h)).symm
      subst e
      simp
    | true =>
      obtain ⟨v, _, hm⟩ := main_running o hw hg
      rw [hm] at h
      cases hr : renderLoop o.frames initialWindow with
      | none => rw [hr] at h; cases h
      | some r =>
        rw [hr] at h
        have e : rc = 0 := (congrArg Prod.fst (Option.some.inj h)).symm
        subst e
        simp

theorem main_zero_iff (o : Oracle) (hw : o.windowCreated = true) (hg : o.gladLoaded = true) :
    (∃ calls, main o = some (0, calls)) ↔ ∃ r, renderLoop o.frames initialWindow = some r := by
  obtain ⟨v, _, hm⟩ := main_running o hw hg
  rw [hm]
  cases renderLoop o.frames initialWindow with
  | none => simp
  | some r => simp

theorem main_filter (o : Oracle) :
    (main o).map (fun r => (r.1, r.2.filter (fun c => !c.isDiagnostic))) =
      (main (allCompiled o)).map (fun r => (r.1, r.2.filter (fun c => !c.isDiagnostic))) := by
  cases hw : o.windowCreated with
  | false => rw [main_window_failed o hw, main_window_failed (allCompiled o) hw]; rfl
  | true =>
    cases hg : o.gladLoaded with
    | false => rw [main_glad_failed o hw hg, main_glad_failed (allCompiled o) hw hg]; rfl
    | true =>
      obtain ⟨v, hv, hm⟩ := main_running o hw hg
      obtain ⟨v2, hv2, hm2⟩ := main_running (allCompiled o) hw hg
      have e : v2 = v := Option.some.inj (hv2.symm.trans hv)
      subst e
      rw [hm, hm2]
      have hf : (allCompiled o).frames = o.frames := rfl
      rw [hf]
      cases renderLoop o.frames initialWindow with
      | none => rfl
      | some r =>
        simp only [Option.map_some', List.filter_append, filter_setupCalls o v2]

theorem main_printed (o : Oracle) (calls : List Call) (h : main o = some (0, calls)) :
    printed calls = shaderLines o := by
  cases hw : o.windowCreated with
  | false =>
    rw [main_window_failed o hw] at h
    have e := congrArg Prod.fst (Option.some.inj h)
    simp at e
  | true =>
    cases hg : o.gladLoaded with
    | false =>
      rw [main_glad_failed o hw hg] at h
      have e := congrArg Prod.fst (Option.some.inj h)
      simp at e
    | true =>
      obtain ⟨v, _, hm⟩ := main_running o hw hg
      rw [hm] at h
      cases hr : renderLoop o.frames initialWindow with
      | none => rw [hr] at h; cases h
      | some r =>
        rw [hr] at h
        have e : calls = setupCalls o v ++ r.2 ++ teardownCalls :=
          (congrArg Prod.snd (Option.some.inj h)).symm
        rw [e, printed_append, printed_append, printed_setupCalls,
          printed_renderLoop _ _ _ hr]
        simp [teardownCalls, printed]

theorem shaderLines_infix (o : Oracle) (line : String) (h : line ∈ shaderLines o) :
    "COMPILATION_FAILED".data <:+: line.data ∨ "LINKING_FAILED".data <:+: line.data := by
  simp only [shaderLines, List.mem_append] at h
  rcases h with ((h | h) | h) | h
  · split at h
    · cases h
    · rw [List.mem_singleton.mp h]; exact Or.inl (infix_compileFailed _ _)
  · split at h
    · cases h
    · rw [List.mem_singleton.mp h]; exact Or.inl (infix_compileFailed _ _)
  · split at h
    · cases h
    · rw [List.mem_singleton.mp h]; exact Or.inl (infix_compileFailed _ _)
  · split at h
    · cases h
    · rw [List.mem_singleton.mp h]; exact Or.inr (infix_linkFailed _)

/-- C7: `main` returns `-1` exactly when window creation or the GL loader fails and `0` in every
other run whose render loop ends (which it does once escape is pressed or a close is
requested); failed compile or link steps only print lines containing `COMPILATION_FAILED` or
`LINKING_FAILED`: with the diagnostics left out, return value and calls are those of the run
where every step succeeds. -/
theorem exit_codes (o : Oracle) :
    (∀ rc calls, main o = some (rc, calls) →
      (rc = -1 ↔ (o.windowCreated = false ∨ o.gladLoaded = false)) ∧ (rc = -1 ∨ rc = 0)) ∧
    ((o.windowCreated = false ∨ o.gladLoaded = false) → ∃ calls, main o = some (-1, calls)) ∧
    (o.windowCreated = true → o.gladLoaded = true →
      ((∃ calls, main o = some (0, calls)) ↔
        ∃ r, renderLoop o.frames initialWindow = some r)) ∧
    (o.windowCreated = true → o.gladLoaded = true →
      (∃ ev ∈ o.frames, ev.escapePressed = true ∨ ev.closeRequested = true) →
      ∃ calls, main o = some (0, calls)) ∧
    (main o).map (fun r => (r.1, r.2.filter (fun c => !c.isDiagnostic))) =
      (main (allCompiled o)).map (fun r => (r.1, r.2.filter (fun c => !c.isDiagnostic))) ∧
    (∀ calls, main o = some (0, calls) → printed calls = shaderLines o) ∧
    ∀ line ∈ shaderLines o,
      "COMPILATION_FAILED".data <:+: line.data ∨ "LINKING_FAILED".data <:+: line.data := by
  refine ⟨main_rc o, ?_, main_zero_iff o, ?_, main_filter o, main_printed o,
    shaderLines_infix o⟩
  · intro h
    cases hw : o.windowCreated with
    | false => exact ⟨_, main_window_failed o hw⟩
    | true =>
      cases hg : o.gladLoaded with
      | false => exact ⟨_, main_glad_failed o hw hg⟩
      | true => rw [hw, hg] at h; simp at h
  · intro hw hg h
    exact (main_zero_iff o hw hg).mpr (renderLoop_ends _ _ h)

theorem terminate_not_mem_setup (o : Oracle) (v : FloatBuf) :
    Call.glfwTerminate ∉ setupCalls o v := by
  simp only [setupCalls, createWindowCalls, compileStage, linkProgram, uploadCalls]
  obtain ⟨apple, sz, wc, gl, vc, gc, fc, lk, vl, gl, fl, ll, fr⟩ := o
  cases apple <;> cases vc <;> cases gc <;> cases fc <;> cases lk <;> simp

theorem terminate_not_mem_frameCalls (ev : FrameEvents) :
    Call.glfwTerminate ∉ frameCalls ev := by
  simp only [frameCalls]
  cases ev.escapePressed <;> simp

theorem terminate_not_mem_iterationCalls (evs : List FrameEvents) :
    Call.glfwTerminate ∉ iterationCalls evs := by
  induction evs with
  | nil => simp [iterationCalls]
  | cons e rest ih =>
    simp only [iterationCalls, List.mem_cons, List.mem_append, not_or]
    exact ⟨⟨by simp, terminate_not_mem_frameCalls e⟩, ih⟩

theorem count_swap_setup (o : Oracle) (v : FloatBuf) :
    (setupCalls o v).count Call.glfwSwapBuffers = 0 := by
  apply List.count_eq_zero_of_not_mem
  simp only [setupCalls, createWindowCalls, compileStage, linkProgram, uploadCalls]
  obtain ⟨apple, sz, wc, gl, vc, gc, fc, lk, vl, gl, fl, ll, fr⟩ := o
  cases apple <;> cases vc <;> cases gc <;> cases fc <;> cases lk <;> simp

theorem count_swap_frameCalls (ev : FrameEvents) :
    (frameCalls ev).count Call.glfwSwapBuffers = 1 := by
  simp only [frameCalls]
  cases ev.escapePressed <;> simp [List.count_cons]

theorem count_swap_iterationCalls (evs : List FrameEvents) :
    (iterationCalls evs).count Call.glfwSwapBuffers = evs.length := by
  induction evs with
  | nil => rfl
  | cons e rest ih =>
    simp only [iterationCalls, List.count_cons, List.count_append, count_swap_frameCalls, ih,
      List.length_cons]
    simp
    omega

theorem nothing_after_last {α : Type} (x : α) (init a b : List α) (hx : x ∉ init)
    (h : init ++ [x] = a ++ x :: b) : b = [] := by
  rcases List.eq_nil_or_concat b with hb | ⟨b1, y, hb⟩
  · exact hb
  · exfalso
    rw [hb] at h
    have h2 : init ++ [x] = (a ++ x :: b1) ++ [y] := by
      rw [h]; simp
    have h3 := List.append_inj' h2 rfl
    apply hx
    rw [h3.1]
    simp

theorem processInput_facts (esc : Bool) (w : Window) :
    (esc = true → (processInput esc w).1.shouldClose = true) ∧
    (esc = false → (processInput esc w).1 = w) ∧
    (w.shouldClose = true → (processInput esc w).1.shouldClose = true) ∧
    ((processInput esc w).1.title = w.title) ∧
    (processInput esc (processInput esc w).1).1 = (processInput esc w).1 := by
  cases esc <;> simp [processInput]

/-- C9: `processInput` sets the close flag when escape is pressed, changes nothing when it is
not, never clears the flag and is idempotent; and when escape is pressed in an iteration of
the render loop that was reached with the flag clear, that iteration is completed (draw, swap,
poll, title), the next loop test ends the loop, the vertex array and the buffer are deleted,
`glfwTerminate` is the last call and `main` returns `0`. -/
theorem escape_closes (o : Oracle) (quiet : List FrameEvents) (ev : FrameEvents)
    (later : List FrameEvents)
    (hw : o.windowCreated = true) (hg : o.gladLoaded = true)
    (hf : o.frames = quiet ++ ev :: later)
    (hq : ∀ e ∈ quiet, e.escapePressed = false ∧ e.closeRequested = false)
    (he : ev.escapePressed = true) :
    (∀ esc w,
      (esc = true → (processInput esc w).1.shouldClose = true) ∧
      (esc = false → (processInput esc w).1 = w) ∧
      (w.shouldClose = true → (processInput esc w).1.shouldClose = true) ∧
      ((processInput esc w).1.title = w.title) ∧
      (processInput esc (processInput esc w).1).1 = (processInput esc w).1) ∧
    ∃ v calls, gridVertices = some v ∧ main o = some (0, calls) ∧
      calls = setupCalls o v ++ iterationCalls quiet ++
        ([Call.glfwWindowShouldClose, Call.clockNow, Call.glfwGetKey,
          Call.glfwSetWindowShouldClose true, Call.glClearColor, Call.glClear,
          Call.glUseProgram, Call.glGetUniformLocation "line_width", Call.glUniform1f,
          Call.glBindVertexArray true, Call.glDrawArrays 0 324, Call.glfwSwapBuffers,
          Call.glfwPollEvents, Call.clockNow,
          Call.glfwSetWindowTitle (frameTitle ev.elapsedNs)] ++
         [Call.glfwWindowShouldClose,
          Call.glDeleteVertexArrays, Call.glDeleteBuffers, Call.glfwTerminate]) ∧
      calls.count Call.glfwSwapBuffers = quiet.length + 1 ∧
      ∀ a b, calls = a ++ Call.glfwTerminate :: b → b = [] := by
  refine ⟨processInput_facts, ?_⟩
  obtain ⟨v, hv, hm⟩ := main_running o hw hg
  obtain ⟨hq1, hq2⟩ := renderLoop_quiet quiet initialWindow (ev :: later) rfl hq
  have hclosed : (frame ev (windowAfter quiet initialWindow)).1.shouldClose = true := by
    rw [frame_shouldClose, hq1, he]; rfl
  have hloop : renderLoop o.frames initialWindow =
      some ((frame ev (windowAfter quiet initialWindow)).1,
        iterationCalls quiet ++ (Call.glfwWindowShouldClose :: frameCalls ev ++
          [Call.glfwWindowShouldClose])) := by
    rw [hf, hq2, renderLoop_open ev later _ hq1, renderLoop_closed later _ hclosed]
    rfl
  have hfc : frameCalls ev = [Call.clockNow, Call.glfwGetKey,
          Call.glfwSetWindowShouldClose true, Call.glClearColor, Call.glClear,
          Call.glUseProgram, Call.glGetUniformLocation "line_width", Call.glUniform1f,
          Call.glBindVertexArray true, Call.glDrawArrays 0 324, Call.glfwSwapBuffers,
          Call.glfwPollEvents, Call.clockNow,
          Call.glfwSetWindowTitle (frameTitle ev.elapsedNs)] := by
    simp only [frameCalls, he, if_true]; rfl
  rw [hloop] at hm
  refine ⟨v, _, hv, hm, ?_, ?_, ?_⟩
  · simp only [hfc, teardownCalls, List.append_assoc, List.cons_append, List.nil_append]
  · simp only [List.count_append, count_swap_setup, count_swap_iterationCalls,
      count_swap_frameCalls, teardownCalls, List.count_cons, List.count_nil]
    simp
  · intro a b hab
    refine nothing_after_last Call.glfwTerminate
      (setupCalls o v ++ (iterationCalls quiet ++ (Call.glfwWindowShouldClose :: frameCalls ev ++
          [Call.glfwWindowShouldClose])) ++ [Call.glDeleteVertexArrays, Call.glDeleteBuffers])
      a b ?_ ?_
    · simp only [List.mem_append, List.mem_cons, not_or]
      refine ⟨⟨terminate_not_mem_setup o v, terminate_not_mem_iterationCalls quiet, ?_⟩, ?_⟩
      · simp [terminate_not_mem_frameCalls ev]
      · simp
    · rw [← hab]
      simp [teardownCalls]

/-- C9 for a run of three frames where escape is pressed in the second. -/
theorem escape_closes_witness :
    ∃ v calls, gridVertices = some v ∧ main sampleOracle = some (0, calls) ∧
      calls.count Call.glfwSwapBuffers = 2 ∧
      ∀ a b, calls = a ++ Call.glfwTerminate :: b → b = [] := by
  obtain ⟨_, v, calls, h1, h2, _, h4, h5⟩ := escape_closes sampleOracle
    [{ escapePressed := false, closeRequested := false, elapsedNs := 16666667 }]
    { escapePressed := true, closeRequested := false, elapsedNs := 16000000 }
    [{ escapePressed := false, closeRequested := false, elapsedNs := 1 }]
    rfl rfl rfl (by simp) rfl
  exact ⟨v, calls, h1, h2, h4, h5⟩

/-! ## Helper lemmas on rounding and printing -/

theorem roundNE_ge (m : ℤ) (q : ℚ) (h : (m : ℚ) ≤ q) : m ≤ roundNE q := by
  have hf : m ≤ ⌊q⌋ := Int.le_floor.mpr h
  unfold roundNE
  split_ifs <;> omega

theorem roundNE_le (m : ℤ) (q : ℚ) (h : q ≤ (m : ℚ)) : roundNE q ≤ m := by
  have hf : ⌊q⌋ ≤ m := by
    have : ((⌊q⌋ : ℤ) : ℚ) ≤ (m : ℚ) := (Int.floor_le q).trans h
    exact_mod_cast this
  by_cases hlt : ⌊q⌋ < m
  · unfold roundNE
    split_ifs <;> omega
  · have e : ⌊q⌋ = m := by omega
    have hq : q - ⌊q⌋ = 0 := by
      have h1 := Int.floor_le q
      rw [e] at h1 ⊢
      linarith
    unfold roundNE
    rw [if_pos (by rw [hq]; norm_num)]
    omega

theorem roundNE_err (q : ℚ) : |(roundNE q : ℚ) - q| ≤ 1/2 := by
  have h1 := Int.floor_le q
  have h2 := Int.lt_floor_add_one q
  unfold roundNE
  split_ifs <;> rw [abs_le] <;> constructor <;> push_cast <;> linarith

theorem two_zpow_toNat (k : ℤ) (hk : 0 ≤ k) : (((2 ^ k.toNat : ℤ)) : ℚ) = (2 : ℚ) ^ k := by
  push_cast
  rw [← zpow_natCast, Int.toNat_of_nonneg hk]

theorem round_pos_spec (F : Fmt) (q : ℚ) (lo hi : ℤ) (hp : 1 ≤ F.prec)
    (hmin : F.emin ≤ lo) (hmax : hi ≤ F.emax) (hlo : (2 : ℚ) ^ lo ≤ q) (hhi : q ≤ (2 : ℚ) ^ hi) :
    ∃ r, F.round q = FP.fin r ∧ (2 : ℚ) ^ lo ≤ r ∧ r ≤ (2 : ℚ) ^ hi ∧
      (F.emin + (F.prec - 1) ≤ lo → |r - q| ≤ q * (2 : ℚ) ^ (-(F.prec : ℤ))) := by
  have h2 : (0 : ℚ) < 2 := by norm_num
  have h12 : (1 : ℚ) < 2 := by norm_num
  have hq0 : 0 < q := lt_of_lt_of_le (zpow_pos h2 lo) hlo
  have habs : |q| = q := abs_of_pos hq0
  have hL1 : (2 : ℚ) ^ Int.log 2 q ≤ q := by
    have := Int.zpow_log_le_self (b := 2) (r := q) (by norm_num) hq0
    simpa using this
  have hloL : lo ≤ Int.log 2 q := by
    apply (Int.zpow_le_iff_le_log (b := 2) (r := q) (by norm_num) hq0).mp
    simpa using hlo
  have hLhi : Int.log 2 q ≤ hi := by
    by_contra hcon
    have h3 : hi + 1 ≤ Int.log 2 q := by omega
    have h4 : (2 : ℚ) ^ (hi + 1) ≤ (2 : ℚ) ^ Int.log 2 q := zpow_le_zpow_right₀ h12.le h3
    have h5 : (2 : ℚ) ^ hi < (2 : ℚ) ^ (hi + 1) := zpow_lt_zpow_right₀ h12 (by omega)
    linarith
  have he : ulpExp F q = max (Int.log 2 q - ((F.prec : ℤ) - 1)) F.emin := by
    simp only [ulpExp, habs]
  have heL : ulpExp F q ≤ Int.log 2 q := by
    rw [he]
    apply max_le <;> omega
  have hepos : (0 : ℚ) < (2 : ℚ) ^ ulpExp F q := zpow_pos h2 _
  -- lower bound
  have hlow : (2 : ℚ) ^ Int.log 2 q ≤ (roundNE (q / 2 ^ ulpExp F q) : ℚ) * 2 ^ ulpExp F q := by
    have hk : 0 ≤ Int.log 2 q - ulpExp F q := by omega
    have h3 : (((2 ^ (Int.log 2 q - ulpExp F q).toNat : ℤ)) : ℚ) ≤ q / 2 ^ ulpExp F q := by
      rw [two_zpow_toNat _ hk, zpow_sub₀ (by norm_num)]
      exact div_le_div_of_nonneg_right hL1 hepos.le
    have h4 := roundNE_ge _ _ h3
    have h5 : (((2 ^ (Int.log 2 q - ulpExp F q).toNat : ℤ)) : ℚ) ≤
        (roundNE (q / 2 ^ ulpExp F q) : ℚ) := by exact_mod_cast h4
    calc (2 : ℚ) ^ Int.log 2 q
        = (2 : ℚ) ^ (Int.log 2 q - ulpExp F q) * 2 ^ ulpExp F q := by
          rw [← zpow_add₀ (by norm_num)]; congr 1; omega
      _ ≤ _ := by
          rw [← two_zpow_toNat _ hk]
          exact mul_le_mul_of_nonneg_right h5 hepos.le
  have hupp : (roundNE (q / 2 ^ ulpExp F q) : ℚ) * 2 ^ ulpExp F q ≤ (2 : ℚ) ^ hi := by
    have hk : 0 ≤ hi - ulpExp F q := by omega
    have h3 : q / 2 ^ ulpExp F q ≤ (((2 ^ (hi - ulpExp F q).toNat : ℤ)) : ℚ) := by
      rw [two_zpow_toNat _ hk, zpow_sub₀ (by norm_num)]
      exact div_le_div_of_nonneg_right hhi hepos.le
    have h4 := roundNE_le _ _ h3
    have h5 : (roundNE (q / 2 ^ ulpExp F q) : ℚ) ≤
        (((2 ^ (hi - ulpExp F q).toNat : ℤ)) : ℚ) := by exact_mod_cast h4
    calc (roundNE (q / 2 ^ ulpExp F q) : ℚ) * 2 ^ ulpExp F q
        ≤ (((2 ^ (hi - ulpExp F q).toNat : ℤ)) : ℚ) * 2 ^ ulpExp F q :=
          mul_le_mul_of_nonneg_right h5 hepos.le
      _ = (2 : ℚ) ^ hi := by
          rw [two_zpow_toNat _ hk, ← zpow_add₀ (by norm_num)]; congr 1; omega
  have hrpos : 0 < (roundNE (q / 2 ^ ulpExp F q) : ℚ) * 2 ^ ulpExp F q :=
    lt_of_lt_of_le (zpow_pos h2 _) hlow
  have hno : ¬ (2 : ℚ) ^ (F.emax + 1) ≤ |(roundNE (q / 2 ^ ulpExp F q) : ℚ) * 2 ^ ulpExp F q| := by
    rw [abs_of_pos hrpos, not_le]
    have h3 : (2 : ℚ) ^ hi < (2 : ℚ) ^ (F.emax + 1) := zpow_lt_zpow_right₀ h12 (by omega)
    linarith
  refine ⟨(roundNE (q / 2 ^ ulpExp F q) : ℚ) * 2 ^ ulpExp F q, ?_, ?_, hupp, ?_⟩
  · simp only [Fmt.round, if_neg hq0.ne', if_neg hno]
  · exact le_trans (zpow_le_zpow_right₀ h12.le hloL) hlow
  · intro hnorm
    have he2 : ulpExp F q = Int.log 2 q - ((F.prec : ℤ) - 1) := by
      rw [he]; apply max_eq_left; omega
    have herr := roundNE_err (q / 2 ^ ulpExp F q)
    have h3 : (roundNE (q / 2 ^ ulpExp F q) : ℚ) * 2 ^ ulpExp F q - q =
        ((roundNE (q / 2 ^ ulpExp F q) : ℚ) - q / 2 ^ ulpExp F q) * 2 ^ ulpExp F q := by
      field_simp
    rw [h3, abs_mul, abs_of_pos hepos]
    have h4 : (2 : ℚ) ^ ulpExp F q = 2 ^ Int.log 2 q * 2 ^ (-(F.prec : ℤ)) * 2 := by
      rw [he2, ← zpow_add₀ (by norm_num), ← zpow_add_one₀ (by norm_num)]
      congr 1; omega
    calc |(roundNE (q / 2 ^ ulpExp F q) : ℚ) - q / 2 ^ ulpExp F q| * 2 ^ ulpExp F q
        ≤ 1/2 * 2 ^ ulpExp F q := mul_le_mul_of_nonneg_right herr hepos.le
      _ = 2 ^ Int.log 2 q * 2 ^ (-(F.prec : ℤ)) := by rw [h4]; ring
      _ ≤ q * 2 ^ (-(F.prec : ℤ)) :=
          mul_le_mul_of_nonneg_right hL1 (zpow_pos h2 _).le

/-- Rounding into `double` of a value between `2^lo` and `2^hi` in the normal range. -/
theorem round64_spec (q : ℚ) (lo hi : ℤ) (hmin : -1022 ≤ lo) (hmax : hi ≤ 1023)
    (hlo : (2 : ℚ) ^ lo ≤ q) (hhi : q ≤ (2 : ℚ) ^ hi) :
    ∃ r, binary64.round q = FP.fin r ∧ (2 : ℚ) ^ lo ≤ r ∧ r ≤ (2 : ℚ) ^ hi ∧
      q * (1 - 1 / 2 ^ 53) ≤ r ∧ r ≤ q * (1 + 1 / 2 ^ 53) := by
  obtain ⟨r, h1, h2, h3, h4⟩ := round_pos_spec binary64 q lo hi (by simp [binary64])
    (by simp only [binary64]; omega) (by simp only [binary64]; omega) hlo hhi
  have h5 := h4 (by simp only [binary64]; push_cast; omega)
  have e : (2 : ℚ) ^ (-((binary64.prec : ℕ) : ℤ)) = 1 / 2 ^ 53 := by
    simp only [binary64]; norm_num [zpow_neg]
  rw [e, abs_le] at h5
  exact ⟨r, h1, h2, h3, by linarith [h5.1], by linarith [h5.2]⟩

/-- Rounding into `float` of a value between `2^lo` and `2^hi` in the normal range. -/
theorem round32_spec (q : ℚ) (lo hi : ℤ) (hmin : -126 ≤ lo) (hmax : hi ≤ 127)
    (hlo : (2 : ℚ) ^ lo ≤ q) (hhi : q ≤ (2 : ℚ) ^ hi) :
    ∃ r, binary32.round q = FP.fin r ∧ (2 : ℚ) ^ lo ≤ r ∧ r ≤ (2 : ℚ) ^ hi ∧
      q * (1 - 1 / 2 ^ 24) ≤ r ∧ r ≤ q * (1 + 1 / 2 ^ 24) := by
  obtain ⟨r, h1, h2, h3, h4⟩ := round_pos_spec binary32 q lo hi (by simp [binary32])
    (by simp only [binary32]; omega) (by simp only [binary32]; omega) hlo hhi
  have h5 := h4 (by simp only [binary32]; push_cast; omega)
  have e : (2 : ℚ) ^ (-((binary32.prec : ℕ) : ℤ)) = 1 / 2 ^ 24 := by
    simp only [binary32]; norm_num [zpow_neg]
  rw [e, abs_le] at h5
  exact ⟨r, h1, h2, h3, by linarith [h5.1], by linarith [h5.2]⟩

theorem fps_lower (n a c b x t f : ℚ) (ha0 : 0 < a) (hx0 : 0 < x)
    (hf0 : 0 < f)
    (ha4 : a ≤ n * (1 + 1 / 2 ^ 53)) (hc4 : c ≤ 1 / 1000000 * (1 + 1 / 2 ^ 53))
    (hb4 : b ≤ c * a * (1 + 1 / 2 ^ 53)) (hx4 : x ≤ b * (1 + 1 / 2 ^ 24))
    (ht3 : 1000 * (1 - 1 / 2 ^ 24) ≤ t) (hf3 : t / x * (1 - 1 / 2 ^ 24) ≤ f) :
    10 ^ 9 * (1 - 1 / 2 ^ 22) ≤ f * n := by
  have k1 : (0 : ℚ) ≤ 1 + 1 / 2 ^ 53 := by norm_num
  have k2 : (0 : ℚ) ≤ 1 + 1 / 2 ^ 24 := by norm_num
  have k3 : (0 : ℚ) ≤ 1 - 1 / 2 ^ 24 := by norm_num
  have k4 : (0 : ℚ) ≤ 1 / 1000000 * (1 + 1 / 2 ^ 53) := by norm_num
  have k5 : (0 : ℚ) < 1 / 1000000 * (1 + 1 / 2 ^ 53) ^ 3 * (1 + 1 / 2 ^ 24) := by norm_num
  have hfx : t * (1 - 1 / 2 ^ 24) ≤ f * x := by
    have h := mul_le_mul_of_nonneg_right hf3 hx0.le
    have e : t / x * (1 - 1 / 2 ^ 24) * x = t * (1 - 1 / 2 ^ 24) := by
      rw [mul_assoc, mul_comm (1 - 1 / 2 ^ 24 : ℚ) x, ← mul_assoc, div_mul_cancel₀ _ hx0.ne']
    rw [e] at h
    exact h
  have hca : c * a ≤ (1 / 1000000 * (1 + 1 / 2 ^ 53)) * (n * (1 + 1 / 2 ^ 53)) :=
    mul_le_mul hc4 ha4 ha0.le k4
  have s1 : b ≤ (1 / 1000000 * (1 + 1 / 2 ^ 53)) * (n * (1 + 1 / 2 ^ 53)) *
      (1 + 1 / 2 ^ 53) := le_trans hb4 (mul_le_mul_of_nonneg_right hca k1)
  have s2 : x ≤ (1 / 1000000 * (1 + 1 / 2 ^ 53)) * (n * (1 + 1 / 2 ^ 53)) *
      (1 + 1 / 2 ^ 53) * (1 + 1 / 2 ^ 24) :=
    le_trans hx4 (mul_le_mul_of_nonneg_right s1 k2)
  have hxU : x ≤ (1 / 1000000 * (1 + 1 / 2 ^ 53) ^ 3 * (1 + 1 / 2 ^ 24)) * n := by
    calc x ≤ _ := s2
      _ = _ := by ring
  have s3 : f * x ≤ f * ((1 / 1000000 * (1 + 1 / 2 ^ 53) ^ 3 * (1 + 1 / 2 ^ 24)) * n) :=
    mul_le_mul_of_nonneg_left hxU hf0.le
  have s4 : 1000 * (1 - 1 / 2 ^ 24) * (1 - 1 / 2 ^ 24) ≤ t * (1 - 1 / 2 ^ 24) :=
    mul_le_mul_of_nonneg_right ht3 k3
  have s5 : ((1 : ℚ) / 1000000 * (1 + 1 / 2 ^ 53) ^ 3 * (1 + 1 / 2 ^ 24)) *
      (10 ^ 9 * (1 - 1 / 2 ^ 22)) ≤ 1000 * (1 - 1 / 2 ^ 24) * (1 - 1 / 2 ^ 24) := by
    norm_num
  have s6 : (1 / 1000000 * (1 + 1 / 2 ^ 53) ^ 3 * (1 + 1 / 2 ^ 24)) *
      (10 ^ 9 * (1 - 1 / 2 ^ 22)) ≤
      (1 / 1000000 * (1 + 1 / 2 ^ 53) ^ 3 * (1 + 1 / 2 ^ 24)) * (f * n) := by
    calc _ ≤ 1000 * (1 - 1 / 2 ^ 24) * (1 - 1 / 2 ^ 24) := s5
      _ ≤ t * (1 - 1 / 2 ^ 24) := s4
      _ ≤ f * x := hfx
      _ ≤ _ := s3
      _ = _ := by ring
  exact le_of_mul_le_mul_left s6 k5

theorem fps_upper (n a c b x t f : ℚ) (hn0 : 0 < n) (hc0 : 0 < c) (hx0 : 0 < x)
    (hf0 : 0 < f)
    (ha3 : n * (1 - 1 / 2 ^ 53) ≤ a) (hc3 : 1 / 1000000 * (1 - 1 / 2 ^ 53) ≤ c)
    (hb3 : c * a * (1 - 1 / 2 ^ 53) ≤ b) (hx3 : b * (1 - 1 / 2 ^ 24) ≤ x)
    (ht4 : t ≤ 1000 * (1 + 1 / 2 ^ 24)) (hf4 : f ≤ t / x * (1 + 1 / 2 ^ 24)) :
    f * n ≤ 10 ^ 9 * (1 + 1 / 2 ^ 22) := by
  have k1 : (0 : ℚ) ≤ 1 - 1 / 2 ^ 53 := by norm_num
  have k2 : (0 : ℚ) ≤ 1 + 1 / 2 ^ 24 := by norm_num
  have k3 : (0 : ℚ) ≤ 1 - 1 / 2 ^ 24 := by norm_num
  have k5 : (0 : ℚ) < 1 / 1000000 * (1 - 1 / 2 ^ 53) ^ 3 * (1 - 1 / 2 ^ 24) := by norm_num
  have hfx : f * x ≤ t * (1 + 1 / 2 ^ 24) := by
    have h := mul_le_mul_of_nonneg_right hf4 hx0.le
    have e : t / x * (1 + 1 / 2 ^ 24) * x = t * (1 + 1 / 2 ^ 24) := by
      rw [mul_assoc, mul_comm (1 + 1 / 2 ^ 24 : ℚ) x, ← mul_assoc, div_mul_cancel₀ _ hx0.ne']
    rw [e] at h
    exact h
  have hca : (1 / 1000000 * (1 - 1 / 2 ^ 53)) * (n * (1 - 1 / 2 ^ 53)) ≤ c * a :=
    mul_le_mul hc3 ha3 (mul_nonneg hn0.le k1) hc0.le
  have s1 : (1 / 1000000 * (1 - 1 / 2 ^ 53)) * (n * (1 - 1 / 2 ^ 53)) *
      (1 - 1 / 2 ^ 53) ≤ b := le_trans (mul_le_mul_of_nonneg_right hca k1) hb3
  have s2 : (1 / 1000000 * (1 - 1 / 2 ^ 53)) * (n * (1 - 1 / 2 ^ 53)) *
      (1 - 1 / 2 ^ 53) * (1 - 1 / 2 ^ 24) ≤ x :=
    le_trans (mul_le_mul_of_nonneg_right s1 k3) hx3
  have hxD : (1 / 1000000 * (1 - 1 / 2 ^ 53) ^ 3 * (1 - 1 / 2 ^ 24)) * n ≤ x := by
    calc _ = _ := by ring
      _ ≤ x := s2
  have s3 : f * ((1 / 1000000 * (1 - 1 / 2 ^ 53) ^ 3 * (1 - 1 / 2 ^ 24)) * n) ≤ f * x :=
    mul_le_mul_of_nonneg_left hxD hf0.le
  have s4 : t * (1 + 1 / 2 ^ 24) ≤ 1000 * (1 + 1 / 2 ^ 24) * (1 + 1 / 2 ^ 24) :=
    mul_le_mul_of_nonneg_right ht4 k2
  have s5 : (1000 : ℚ) * (1 + 1 / 2 ^ 24) * (1 + 1 / 2 ^ 24) ≤
      (1 / 1000000 * (1 - 1 / 2 ^ 53) ^ 3 * (1 - 1 / 2 ^ 24)) *
      (10 ^ 9 * (1 + 1 / 2 ^ 22)) := by
    norm_num
  have s6 : (1 / 1000000 * (1 - 1 / 2 ^ 53) ^ 3 * (1 - 1 / 2 ^ 24)) * (f * n) ≤
      (1 / 1000000 * (1 - 1 / 2 ^ 53) ^ 3 * (1 - 1 / 2 ^ 24)) *
      (10 ^ 9 * (1 + 1 / 2 ^ 22)) := by
    calc _ = f * ((1 / 1000000 * (1 - 1 / 2 ^ 53) ^ 3 * (1 - 1 / 2 ^ 24)) * n) := by ring
      _ ≤ f * x := s3
      _ ≤ t * (1 + 1 / 2 ^ 24) := hfx
      _ ≤ _ := s4
      _ ≤ _ := s5
  exact le_of_mul_le_mul_left s6 k5

theorem fpsValue_eval (n : ℤ) (a c b x t f : ℚ) (ha : binary64.round (n : ℚ) = FP.fin a)
    (hc : binary64.round (1 / 1000000) = FP.fin c)
    (hb : binary64.round (c * a) = FP.fin b) (hx : binary32.round b = FP.fin x)
    (ht : binary32.round 1000 = FP.fin t) (hx0 : x ≠ 0)
    (hf : binary32.round (t / x) = FP.fin f) : fpsValue n = FP.fin f := by
  unfold fpsValue
  rw [ha, hc, ht]
  show FP.div binary32 (FP.fin t) (FP.cast binary32 (binary64.round (c * a))) = FP.fin f
  rw [hb]
  show FP.div binary32 (FP.fin t) (binary32.round b) = FP.fin f
  rw [hx]
  show (if x = 0 then (if t = 0 then FP.nan else FP.inf (decide (t < 0)))
    else binary32.round (t / x)) = FP.fin f
  rw [if_neg hx0, hf]

theorem fpsValue_spec (n : Int) (h0 : 0 < n) (h1 : n < 2 ^ 63) :
    ∃ r, fpsValue n = FP.fin r ∧ (2 : ℚ) ^ (-35 : ℤ) ≤ r ∧ r ≤ (2 : ℚ) ^ (30 : ℤ) ∧
      10 ^ 9 * (1 - 1 / 2 ^ 22) ≤ r * n ∧ r * n ≤ 10 ^ 9 * (1 + 1 / 2 ^ 22) := by
  have hn1 : (1 : ℚ) ≤ n := by exact_mod_cast h0
  have hn2 : (n : ℚ) ≤ 2 ^ 63 := by exact_mod_cast h1.le
  have hn0 : (0 : ℚ) < n := by linarith
  obtain ⟨a, ha, ha1, ha2, ha3, ha4⟩ := round64_spec (n : ℚ) 0 63 (by omega) (by omega)
    (by simpa using hn1) (by exact_mod_cast hn2)
  obtain ⟨c, hc, hc1, hc2, hc3, hc4⟩ := round64_spec (1 / 1000000) (-20) (-19) (by omega)
    (by omega) (by norm_num [zpow_neg]) (by norm_num [zpow_neg])
  have ha0 : 0 < a := lt_of_lt_of_le (zpow_pos (by norm_num) _) ha1
  have hc0 : 0 < c := lt_of_lt_of_le (zpow_pos (by norm_num) _) hc1
  have hca1 : (2 : ℚ) ^ (-20 : ℤ) ≤ c * a := by
    have : (2 : ℚ) ^ (-20 : ℤ) * (2 : ℚ) ^ (0 : ℤ) ≤ c * a :=
      mul_le_mul hc1 ha1 (zpow_pos (by norm_num) _).le hc0.le
    simpa using this
  have hca2 : c * a ≤ (2 : ℚ) ^ (44 : ℤ) := by
    have : c * a ≤ (2 : ℚ) ^ (-19 : ℤ) * (2 : ℚ) ^ (63 : ℤ) :=
      mul_le_mul hc2 ha2 ha0.le (zpow_pos (by norm_num) _).le
    rw [← zpow_add₀ (by norm_num)] at this
    exact this
  obtain ⟨b, hb, hb1, hb2, hb3, hb4⟩ := round64_spec (c * a) (-20) 44 (by omega) (by omega)
    hca1 hca2
  obtain ⟨x, hx, hx1, hx2, hx3, hx4⟩ := round32_spec b (-20) 44 (by omega) (by omega) hb1 hb2
  obtain ⟨t, ht, ht1, ht2, ht3, ht4⟩ := round32_spec 1000 9 10 (by omega) (by omega)
    (by norm_num) (by norm_num)
  have hx0 : 0 < x := lt_of_lt_of_le (zpow_pos (by norm_num) _) hx1
  have htx1 : (2 : ℚ) ^ (-35 : ℤ) ≤ t / x := by
    rw [le_div_iff₀ hx0]
    calc (2 : ℚ) ^ (-35 : ℤ) * x ≤ (2 : ℚ) ^ (-35 : ℤ) * (2 : ℚ) ^ (44 : ℤ) :=
          mul_le_mul_of_nonneg_left hx2 (zpow_pos (by norm_num) _).le
      _ = (2 : ℚ) ^ (9 : ℤ) := by rw [← zpow_add₀ (by norm_num)]; norm_num
      _ ≤ t := ht1
  have htx2 : t / x ≤ (2 : ℚ) ^ (30 : ℤ) := by
    rw [div_le_iff₀ hx0]
    calc t ≤ (2 : ℚ) ^ (10 : ℤ) := ht2
      _ = (2 : ℚ) ^ (30 : ℤ) * (2 : ℚ) ^ (-20 : ℤ) := by
          rw [← zpow_add₀ (by norm_num)]; norm_num
      _ ≤ (2 : ℚ) ^ (30 : ℤ) * x :=
          mul_le_mul_of_nonneg_left hx1 (zpow_pos (by norm_num) _).le
  obtain ⟨f, hf, hf1, hf2, hf3, hf4⟩ := round32_spec (t / x) (-35) 30 (by omega) (by omega)
    htx1 htx2
  have hf0 : 0 < f := lt_of_lt_of_le (zpow_pos (by norm_num) _) hf1
  refine ⟨f, ?_, hf1, hf2, fps_lower n a c b x t f ha0 hx0 hf0 ha4 hc4 hb4 hx4 ht3 hf3,
    fps_upper n a c b x t f hn0 hc0 hx0 hf0 ha3 hc3 hb3 hx3 ht4 hf4⟩
  exact fpsValue_eval n a c b x t f ha hc hb hx ht hx0.ne' hf

theorem digitChar_isDigit (d : Nat) (h : d < 10) : (Nat.digitChar d).isDigit = true := by
  interval_cases d <;> rfl

theorem natDigits_spec : ∀ (k n : Nat), n < k →
    natDigits n ≠ [] ∧ ∀ c ∈ natDigits n, c.isDigit = true := by
  intro k
  induction k with
  | zero => intro n h; omega
  | succ k ih =>
    intro n h
    rw [natDigits]
    by_cases h10 : n < 10
    · rw [if_pos h10]
      refine ⟨by simp, ?_⟩
      intro c hc
      rw [List.mem_singleton.mp hc]
      exact digitChar_isDigit n h10
    · rw [if_neg h10]
      refine ⟨by simp, ?_⟩
      intro c hc
      rcases List.mem_append.mp hc with h1 | h1
      · exact (ih (n / 10) (by omega)).2 c h1
      · rw [List.mem_singleton.mp h1]
        exact digitChar_isDigit _ (by omega)

theorem fracDigits_spec : ∀ (width n : Nat),
    (fracDigits width n).length = width ∧ ∀ c ∈ fracDigits width n, c.isDigit = true := by
  intro width
  induction width with
  | zero => intro n; simp [fracDigits]
  | succ w ih =>
    intro n
    simp only [fracDigits, List.length_append, List.length_singleton, (ih (n / 10)).1,
      true_and]
    intro c hc
    rcases List.mem_append.mp hc with h1 | h1
    · exact (ih (n / 10)).2 c h1
    · rw [List.mem_singleton.mp h1]
      exact digitChar_isDigit _ (by omega)

theorem formatFixed_nonneg (r : ℚ) (hr : 0 ≤ r) :
    formatFixed 3 (FP.fin r) =
      natDigits ((roundNE (r * 1000)).toNat / 1000) ++
        '.' :: fracDigits 3 ((roundNE (r * 1000)).toNat % 1000) := by
  have h : ¬ r < 0 := not_lt.mpr hr
  simp only [formatFixed, if_neg h, abs_of_nonneg hr, List.nil_append]
  norm_num

theorem fpsValue_zero : fpsValue 0 = FP.inf false := by
  obtain ⟨c, hc, _⟩ := round64_spec (1 / 1000000) (-20) (-19) (by omega)
    (by omega) (by norm_num [zpow_neg]) (by norm_num [zpow_neg])
  obtain ⟨t, ht, ht1, _⟩ := round32_spec 1000 9 10 (by omega) (by omega)
    (by norm_num) (by norm_num)
  have ht0 : 0 < t := lt_of_lt_of_le (zpow_pos (by norm_num) _) ht1
  have hz64 : binary64.round 0 = FP.fin 0 := by simp only [Fmt.round, if_true]
  have hz32 : binary32.round 0 = FP.fin 0 := by simp only [Fmt.round, if_true]
  unfold fpsValue
  rw [Int.cast_zero, hz64, hc, ht]
  show FP.div binary32 (FP.fin t) (FP.cast binary32 (binary64.round (c * 0))) = FP.inf false
  rw [mul_zero, hz64]
  show FP.div binary32 (FP.fin t) (binary32.round 0) = FP.inf false
  rw [hz32]
  show (if (0 : ℚ) = 0 then (if t = 0 then FP.nan else FP.inf (decide (t < 0)))
    else binary32.round (t / 0)) = FP.inf false
  rw [if_pos rfl, if_neg ht0.ne']
  have : ¬ t < 0 := not_lt.mpr ht0.le
  simp [this]

theorem roundNE_eq (q : ℚ) (m : ℤ) (h1 : (m : ℚ) - 1 / 2 < q) (h2 : q < (m : ℚ) + 1 / 2) :
    roundNE q = m := by
  have herr := roundNE_err q
  rw [abs_le] at herr
  have a1 : ((roundNE q : ℤ) : ℚ) < (m : ℚ) + 1 := by linarith [herr.2]
  have a2 : (m : ℚ) - 1 < ((roundNE q : ℤ) : ℚ) := by linarith [herr.1]
  have b1 : roundNE q < m + 1 := by exact_mod_cast a1
  have b2 : m - 1 < roundNE q := by exact_mod_cast a2
  omega

/-- Rounding of a positive `q` with `2^L ≤ q < 2^(L+1)` whose scaled value is nearest to
`m`. -/
theorem round_eq (F : Fmt) (q : ℚ) (L e m : ℤ) (hq : 0 < q)
    (hL1 : (2 : ℚ) ^ L ≤ q) (hL2 : q < (2 : ℚ) ^ (L + 1))
    (he : e = max (L - ((F.prec : ℤ) - 1)) F.emin)
    (hm1 : (m : ℚ) - 1 / 2 < q / 2 ^ e) (hm2 : q / 2 ^ e < (m : ℚ) + 1 / 2)
    (hm0 : 0 ≤ m) (hov : (m : ℚ) * 2 ^ e < 2 ^ (F.emax + 1)) :
    F.round q = FP.fin ((m : ℚ) * 2 ^ e) := by
  have hlog : Int.log 2 q = L := by
    apply le_antisymm
    · have := (Int.lt_zpow_iff_log_lt (b := 2) (r := q) (by norm_num) hq (x := L + 1)).mp
        (by simpa using hL2)
      omega
    · exact (Int.zpow_le_iff_le_log (b := 2) (r := q) (by norm_num) hq).mp (by simpa using hL1)
  have hu : ulpExp F q = e := by
    simp only [ulpExp, abs_of_pos hq, hlog, he]
  have hr : roundNE (q / 2 ^ e) = m := roundNE_eq _ _ hm1 hm2
  have hnn : (0 : ℚ) ≤ (m : ℚ) * 2 ^ e :=
    mul_nonneg (by exact_mod_cast hm0) (zpow_pos (by norm_num) _).le
  have hno : ¬ (2 : ℚ) ^ (F.emax + 1) ≤ |(m : ℚ) * 2 ^ e| := by
    rw [abs_of_nonneg hnn]; exact not_le.mpr hov
  simp only [Fmt.round, if_neg hq.ne', hu, hr, if_neg hno]

theorem fpsValue_200051 : fpsValue 200051 = FP.fin (5118695 / 1024) := by
  have ha : binary64.round ((200051 : ℤ) : ℚ) = FP.fin 200051 := by
    have := round_eq binary64 ((200051 : ℤ) : ℚ) 17 (-35) 6873700020256768 (by norm_num)
      (by norm_num) (by norm_num) (by simp [binary64]) (by norm_num [zpow_neg])
      (by norm_num [zpow_neg]) (by norm_num) (by norm_num [binary64, zpow_neg])
    rw [this]; congr 1; norm_num [zpow_neg]
  have hc : binary64.round (1 / 1000000) = FP.fin (4722366482869645 / 2 ^ 72) := by
    have := round_eq binary64 (1 / 1000000) (-20) (-72) 4722366482869645 (by norm_num)
      (by norm_num [zpow_neg]) (by norm_num [zpow_neg]) (by simp [binary64])
      (by norm_num [zpow_neg]) (by norm_num [zpow_neg]) (by norm_num)
      (by norm_num [binary64, zpow_neg])
    rw [this]; congr 1; norm_num [zpow_neg]
  have hb : binary64.round (4722366482869645 / 2 ^ 72 * 200051) =
      FP.fin (900949609055095 / 4503599627370496) := by
    have := round_eq binary64 (4722366482869645 / 2 ^ 72 * 200051) (-3) (-55) 7207596872440760
      (by norm_num) (by norm_num [zpow_neg]) (by norm_num [zpow_neg]) (by simp [binary64])
      (by norm_num [zpow_neg]) (by norm_num [zpow_neg]) (by norm_num)
      (by norm_num [binary64, zpow_neg])
    rw [this]; congr 1; norm_num [zpow_neg]
  have hx : binary32.round (900949609055095 / 4503599627370496) =
      FP.fin (13425195 / 67108864) := by
    have := round_eq binary32 (900949609055095 / 4503599627370496) (-3) (-26) 13425195
      (by norm_num) (by norm_num [zpow_neg]) (by norm_num [zpow_neg]) (by simp [binary32])
      (by norm_num [zpow_neg]) (by norm_num [zpow_neg]) (by norm_num)
      (by norm_num [binary32, zpow_neg])
    rw [this]; congr 1; norm_num [zpow_neg]
  have ht : binary32.round 1000 = FP.fin 1000 := by
    have := round_eq binary32 1000 9 (-14) 16384000
      (by norm_num) (by norm_num) (by norm_num) (by simp [binary32])
      (by norm_num [zpow_neg]) (by norm_num [zpow_neg]) (by norm_num)
      (by norm_num [binary32, zpow_neg])
    rw [this]; congr 1; norm_num [zpow_neg]
  have hf : binary32.round (1000 / (13425195 / 67108864)) = FP.fin (5118695 / 1024) := by
    have := round_eq binary32 (1000 / (13425195 / 67108864)) 12 (-11) 10237390
      (by norm_num) (by norm_num) (by norm_num) (by simp [binary32])
      (by norm_num [zpow_neg]) (by norm_num [zpow_neg]) (by norm_num)
      (by norm_num [binary32, zpow_neg])
    rw [this]; congr 1; norm_num [zpow_neg]
  exact fpsValue_eval 200051 200051 (4722366482869645 / 2 ^ 72)
    (900949609055095 / 4503599627370496) (13425195 / 67108864) 1000 (5118695 / 1024)
    ha hc hb hx ht (by norm_num) hf

theorem natDigits_4998 : natDigits 4998 = ['4', '9', '9', '8'] := by
  rw [natDigits, if_neg (by decide), natDigits, if_neg (by decide), natDigits,
    if_neg (by decide), natDigits, if_pos (by decide)]
  rfl

theorem round_neg_spec (F : Fmt) (q : ℚ) (lo hi : ℤ) (hp : 1 ≤ F.prec)
    (hmin : F.emin ≤ lo) (hmax : hi ≤ F.emax) (hlo : q ≤ -(2 : ℚ) ^ lo)
    (hhi : -(2 : ℚ) ^ hi ≤ q) :
    ∃ r, F.round q = FP.fin r ∧ -(2 : ℚ) ^ hi ≤ r ∧ r ≤ -(2 : ℚ) ^ lo := by
  have h2 : (0 : ℚ) < 2 := by norm_num
  have h12 : (1 : ℚ) < 2 := by norm_num
  have hq0 : q < 0 := lt_of_le_of_lt hlo (neg_lt_zero.mpr (zpow_pos h2 lo))
  have hnq0 : 0 < -q := neg_pos.mpr hq0
  have habs : |q| = -q := abs_of_neg hq0
  have hL1 : (2 : ℚ) ^ Int.log 2 (-q) ≤ -q := by
    have := Int.zpow_log_le_self (b := 2) (r := -q) (by norm_num) hnq0
    simpa using this
  have hloL : lo ≤ Int.log 2 (-q) := by
    apply (Int.zpow_le_iff_le_log (b := 2) (r := -q) (by norm_num) hnq0).mp
    have : (2 : ℚ) ^ lo ≤ -q := by linarith
    simpa using this
  have hLhi : Int.log 2 (-q) ≤ hi := by
    by_contra hcon
    have h3 : hi + 1 ≤ Int.log 2 (-q) := by omega
    have h4 : (2 : ℚ) ^ (hi + 1) ≤ (2 : ℚ) ^ Int.log 2 (-q) := zpow_le_zpow_right₀ h12.le h3
    have h5 : (2 : ℚ) ^ hi < (2 : ℚ) ^ (hi + 1) := zpow_lt_zpow_right₀ h12 (by omega)
    linarith
  have he : ulpExp F q = max (Int.log 2 (-q) - ((F.prec : ℤ) - 1)) F.emin := by
    simp only [ulpExp, habs]
  have heL : ulpExp F q ≤ Int.log 2 (-q) := by
    rw [he]
    apply max_le <;> omega
  have hepos : (0 : ℚ) < (2 : ℚ) ^ ulpExp F q := zpow_pos h2 _
  have hupp : (roundNE (q / 2 ^ ulpExp F q) : ℚ) * 2 ^ ulpExp F q ≤
      -(2 : ℚ) ^ Int.log 2 (-q) := by
    have hk : 0 ≤ Int.log 2 (-q) - ulpExp F q := by omega
    have h3 : q / 2 ^ ulpExp F q ≤
        (((-(2 ^ (Int.log 2 (-q) - ulpExp F q).toNat) : ℤ)) : ℚ) := by
      rw [Int.cast_neg, two_zpow_toNat _ hk, zpow_sub₀ (by norm_num), ← neg_div]
      exact div_le_div_of_nonneg_right (by linarith) hepos.le
    have h4 := roundNE_le _ _ h3
    have h5 : (roundNE (q / 2 ^ ulpExp F q) : ℚ) ≤
        (((-(2 ^ (Int.log 2 (-q) - ulpExp F q).toNat) : ℤ)) : ℚ) := by exact_mod_cast h4
    calc (roundNE (q / 2 ^ ulpExp F q) : ℚ) * 2 ^ ulpExp F q
        ≤ (((-(2 ^ (Int.log 2 (-q) - ulpExp F q).toNat) : ℤ)) : ℚ) * 2 ^ ulpExp F q :=
          mul_le_mul_of_nonneg_right h5 hepos.le
      _ = -(2 : ℚ) ^ Int.log 2 (-q) := by
          rw [Int.cast_neg, two_zpow_toNat _ hk, neg_mul, ← zpow_add₀ (by norm_num)]
          congr 2; omega
  have hlow : -(2 : ℚ) ^ hi ≤ (roundNE (q / 2 ^ ulpExp F q) : ℚ) * 2 ^ ulpExp F q := by
    have hk : 0 ≤ hi - ulpExp F q := by omega
    have h3 : (((-(2 ^ (hi - ulpExp F q).toNat) : ℤ)) : ℚ) ≤ q / 2 ^ ulpExp F q := by
      rw [Int.cast_neg, two_zpow_toNat _ hk, zpow_sub₀ (by norm_num), ← neg_div]
      exact div_le_div_of_nonneg_right hhi hepos.le
    have h4 := roundNE_ge _ _ h3
    have h5 : (((-(2 ^ (hi - ulpExp F q).toNat) : ℤ)) : ℚ) ≤
        (roundNE (q / 2 ^ ulpExp F q) : ℚ) := by exact_mod_cast h4
    calc -(2 : ℚ) ^ hi
        = (((-(2 ^ (hi - ulpExp F q).toNat) : ℤ)) : ℚ) * 2 ^ ulpExp F q := by
          rw [Int.cast_neg, two_zpow_toNat _ hk, neg_mul, ← zpow_add₀ (by norm_num)]
          congr 2; omega
      _ ≤ _ := mul_le_mul_of_nonneg_right h5 hepos.le
  have hrneg : (roundNE (q / 2 ^ ulpExp F q) : ℚ) * 2 ^ ulpExp F q < 0 :=
    lt_of_le_of_lt hupp (neg_lt_zero.mpr (zpow_pos h2 _))
  have hno : ¬ (2 : ℚ) ^ (F.emax + 1) ≤ |(roundNE (q / 2 ^ ulpExp F q) : ℚ) * 2 ^ ulpExp F q| := by
    rw [abs_of_neg hrneg, not_le]
    have h3 : (2 : ℚ) ^ hi < (2 : ℚ) ^ (F.emax + 1) := zpow_lt_zpow_right₀ h12 (by omega)
    linarith
  refine ⟨(roundNE (q / 2 ^ ulpExp F q) : ℚ) * 2 ^ ulpExp F q, ?_, hlow, ?_⟩
  · simp only [Fmt.round, if_neg hq0.ne, if_neg hno]
  · have := zpow_le_zpow_right₀ h12.le hloL
    linarith

theorem fpsValue_neg (n : Int) (h0 : n < 0) (h1 : -2 ^ 63 ≤ n) :
    ∃ r, fpsValue n = FP.fin r ∧ r < 0 := by
  have hn1 : (n : ℚ) ≤ -1 := by
    have : n ≤ -1 := by omega
    exact_mod_cast this
  have hn2 : -(2 : ℚ) ^ 63 ≤ (n : ℚ) := by exact_mod_cast h1
  obtain ⟨a, ha, ha1, ha2⟩ := round_neg_spec binary64 (n : ℚ) 0 63 (by simp [binary64])
    (by simp [binary64]) (by simp [binary64]) (by simpa using hn1) (by exact_mod_cast hn2)
  obtain ⟨c, hc, hc1, hc2, _⟩ := round64_spec (1 / 1000000) (-20) (-19) (by omega)
    (by omega) (by norm_num [zpow_neg]) (by norm_num [zpow_neg])
  have hc0 : 0 < c := lt_of_lt_of_le (zpow_pos (by norm_num) _) hc1
  have ha0 : a < 0 := lt_of_le_of_lt ha2 (neg_lt_zero.mpr (zpow_pos (by norm_num) _))
  have hca1 : c * a ≤ -(2 : ℚ) ^ (-20 : ℤ) := by
    have h3 : (2 : ℚ) ^ (-20 : ℤ) * (2 : ℚ) ^ (0 : ℤ) ≤ c * (-a) :=
      mul_le_mul hc1 (by linarith) (zpow_pos (by norm_num) _).le hc0.le
    have h4 : (2 : ℚ) ^ (-20 : ℤ) * (2 : ℚ) ^ (0 : ℤ) = (2 : ℚ) ^ (-20 : ℤ) := by simp
    rw [h4] at h3
    linarith
  have hca2 : -(2 : ℚ) ^ (44 : ℤ) ≤ c * a := by
    have h3 : c * (-a) ≤ (2 : ℚ) ^ (-19 : ℤ) * (2 : ℚ) ^ (63 : ℤ) :=
      mul_le_mul hc2 (by linarith) (by linarith) (zpow_pos (by norm_num) _).le
    rw [← zpow_add₀ (by norm_num)] at h3
    have h4 : (2 : ℚ) ^ ((-19 : ℤ) + 63) = (2 : ℚ) ^ (44 : ℤ) := by norm_num
    rw [h4] at h3
    linarith
  obtain ⟨b, hb, hb1, hb2⟩ := round_neg_spec binary64 (c * a) (-20) 44 (by simp [binary64])
    (by simp [binary64]) (by simp [binary64]) hca1 hca2
  obtain ⟨x, hx, hx1, hx2⟩ := round_neg_spec binary32 b (-20) 44 (by simp [binary32])
    (by simp [binary32]) (by simp [binary32]) hb2 hb1
  obtain ⟨t, ht, ht1, ht2, _⟩ := round32_spec 1000 9 10 (by omega) (by omega)
    (by norm_num) (by norm_num)
  have hx0 : x < 0 := lt_of_le_of_lt hx2 (neg_lt_zero.mpr (zpow_pos (by norm_num) _))
  have hnx0 : 0 < -x := by linarith
  have htx1 : t / x ≤ -(2 : ℚ) ^ (-35 : ℤ) := by
    have h3 : (2 : ℚ) ^ (-35 : ℤ) ≤ t / (-x) := by
      rw [le_div_iff₀ hnx0]
      calc (2 : ℚ) ^ (-35 : ℤ) * (-x) ≤ (2 : ℚ) ^ (-35 : ℤ) * (2 : ℚ) ^ (44 : ℤ) :=
            mul_le_mul_of_nonneg_left (by linarith) (zpow_pos (by norm_num) _).le
        _ = (2 : ℚ) ^ (9 : ℤ) := by rw [← zpow_add₀ (by norm_num)]; norm_num
        _ ≤ t := ht1
    rw [div_neg] at h3
    linarith
  have htx2 : -(2 : ℚ) ^ (30 : ℤ) ≤ t / x := by
    have h3 : t / (-x) ≤ (2 : ℚ) ^ (30 : ℤ) := by
      rw [div_le_iff₀ hnx0]
      calc t ≤ (2 : ℚ) ^ (10 : ℤ) := ht2
        _ = (2 : ℚ) ^ (30 : ℤ) * (2 : ℚ) ^ (-20 : ℤ) := by
            rw [← zpow_add₀ (by norm_num)]; norm_num
        _ ≤ (2 : ℚ) ^ (30 : ℤ) * (-x) :=
            mul_le_mul_of_nonneg_left (by linarith) (zpow_pos (by norm_num) _).le
    rw [div_neg] at h3
    linarith
  obtain ⟨f, hf, hf1, hf2⟩ := round_neg_spec binary32 (t / x) (-35) 30 (by simp [binary32])
    (by simp [binary32]) (by simp [binary32]) htx1 htx2
  exact ⟨f, fpsValue_eval n a c b x t f ha hc hb hx ht hx0.ne hf,
    lt_of_le_of_lt hf2 (neg_lt_zero.mpr (zpow_pos (by norm_num) _))⟩

theorem formatFixed_neg (r : ℚ) (hr : r < 0) :
    formatFixed 3 (FP.fin r) =
      '-' :: (natDigits ((roundNE (|r| * 10 ^ 3)).toNat / 10 ^ 3) ++
        '.' :: fracDigits 3 ((roundNE (|r| * 10 ^ 3)).toNat % 10 ^ 3)) := by
  simp only [formatFixed, if_pos hr]
  simp

theorem frameTitle_zero : frameTitle 0 = "OpenGL Test | fps=inf" := by
  unfold frameTitle
  rw [fpsValue_zero]
  decide

/-- A text whose first character after the title head is no digit does not match. -/
theorem not_matches_of_head (s : String) (c : Char) (rest : List Char)
    (hs : s.data = titleHead.data ++ c :: rest) (hc : c.isDigit = false) :
    ¬ MatchesFpsPattern s := by
  rintro ⟨ip, fp, h, hne, hd, _, _⟩
  rw [hs, List.append_assoc] at h
  have h3 := List.append_cancel_left h
  cases ip with
  | nil => exact hne rfl
  | cons d ds =>
    have hdc : d = c := by
      have := congrArg List.head? h3
      simpa using this.symm
    have := hd d (List.mem_cons_self _ _)
    rw [hdc, hc] at this
    cases this

theorem not_matches_zero : ¬ MatchesFpsPattern (frameTitle 0) := by
  apply not_matches_of_head (frameTitle 0) 'i' ['n', 'f']
  · rw [frameTitle_zero]; decide
  · decide

/-- The title of a frame whose frame rate is a finite number that is not negative. -/
theorem matches_of_nonneg (n : Int) (r : ℚ) (hr : fpsValue n = FP.fin r) (h0 : 0 ≤ r) :
    frameTitle n = titleHead ++ String.mk
      (natDigits ((roundNE (r * 1000)).toNat / 1000) ++
        '.' :: fracDigits 3 ((roundNE (r * 1000)).toNat % 1000)) ∧
    MatchesFpsPattern (frameTitle n) := by
  have ht : frameTitle n = titleHead ++ String.mk
        (natDigits ((roundNE (r * 1000)).toNat / 1000) ++
          '.' :: fracDigits 3 ((roundNE (r * 1000)).toNat % 1000)) := by
    unfold frameTitle
    rw [hr, formatFixed_nonneg r h0]
  refine ⟨ht, natDigits ((roundNE (r * 1000)).toNat / 1000),
    fracDigits 3 ((roundNE (r * 1000)).toNat % 1000), ?_,
    (natDigits_spec _ _ (Nat.lt_succ_self _)).1, (natDigits_spec _ _ (Nat.lt_succ_self _)).2,
    (fracDigits_spec 3 _).1, (fracDigits_spec 3 _).2⟩
  rw [ht, String.data_append, List.append_assoc]

/-- The number printed is within half a thousandth of the frame rate. -/
theorem printed_value_close (r : ℚ) (h0 : 0 ≤ r) :
    |((roundNE (r * 1000)).toNat : ℚ) / 1000 - r| ≤ 1 / 2000 := by
  have hN : (0 : ℤ) ≤ roundNE (r * 1000) :=
    roundNE_ge 0 _ (by push_cast; positivity)
  have hc : (((roundNE (r * 1000)).toNat : ℤ) : ℚ) = (roundNE (r * 1000) : ℚ) := by
    rw [Int.toNat_of_nonneg hN]
  have hc2 : ((roundNE (r * 1000)).toNat : ℚ) = (roundNE (r * 1000) : ℚ) := by
    rw [← hc]; norm_cast
  rw [hc2]
  have herr := roundNE_err (r * 1000)
  rw [abs_le] at herr ⊢
  constructor <;> linarith [herr.1, herr.2]

/-! ## The claim on the window title -/

/-- C8 as stated fails for a frame whose elapsed count is `0`: the divisor is zero, the
frame rate is `+inf`, and the title is `OpenGL Test | fps=inf`, which has no digits, no dot
and no decimals. -/
theorem title_at_zero_elapsed :
    fpsValue 0 = FP.inf false ∧ frameTitle 0 = "OpenGL Test | fps=inf" ∧
    ¬ MatchesFpsPattern (frameTitle 0) :=
  ⟨fpsValue_zero, frameTitle_zero, not_matches_zero⟩

/-- C8, amended: for every frame whose elapsed count `n` of nanoseconds is positive (and fits
the 64-bit counter), the frame rate computed in `float` is a positive finite number `r` within
relative error `2^-22` of `10^9 / n` (that is, of 1000 over the elapsed milliseconds), and the
title is `OpenGL Test | fps=` followed by `r` rounded to three decimals, written as one or more
digits, a dot and exactly three digits. -/
theorem title_pattern (n : Int) (h0 : 0 < n) (h1 : n < 2 ^ 63) :
    ∃ r : ℚ, fpsValue n = FP.fin r ∧ 0 < r ∧
      10 ^ 9 * (1 - 1 / 2 ^ 22) ≤ r * n ∧ r * n ≤ 10 ^ 9 * (1 + 1 / 2 ^ 22) ∧
      |((roundNE (r * 1000)).toNat : ℚ) / 1000 - r| ≤ 1 / 2000 ∧
      frameTitle n = titleHead ++ String.mk
        (natDigits ((roundNE (r * 1000)).toNat / 1000) ++
          '.' :: fracDigits 3 ((roundNE (r * 1000)).toNat % 1000)) ∧
      MatchesFpsPattern (frameTitle n) := by
  obtain ⟨r, hr, hr1, _, hr3, hr4⟩ := fpsValue_spec n h0 h1
  have hr0 : 0 < r := lt_of_lt_of_le (zpow_pos (by norm_num) _) hr1
  obtain ⟨ht, hm⟩ := matches_of_nonneg n r hr hr0.le
  exact ⟨r, hr, hr0, hr3, hr4, printed_value_close r hr0.le, ht, hm⟩

/-- C8, amended, for a frame of 16666667 ns (60 frames per second). -/
theorem title_pattern_witness :
    ∃ r : ℚ, fpsValue 16666667 = FP.fin r ∧ 0 < r ∧
      10 ^ 9 * (1 - 1 / 2 ^ 22) ≤ r * (16666667 : Int) ∧
      r * (16666667 : Int) ≤ 10 ^ 9 * (1 + 1 / 2 ^ 22) ∧
      |((roundNE (r * 1000)).toNat : ℚ) / 1000 - r| ≤ 1 / 2000 ∧
      frameTitle 16666667 = titleHead ++ String.mk
        (natDigits ((roundNE (r * 1000)).toNat / 1000) ++
          '.' :: fracDigits 3 ((roundNE (r * 1000)).toNat % 1000)) ∧
      MatchesFpsPattern (frameTitle 16666667) :=
  title_pattern 16666667 (by decide) (by norm_num)

/-- For a frame whose elapsed count is negative (the clock was set back between the two
readings) the frame rate is negative and the title carries a minus sign. -/
theorem title_negative_elapsed (n : Int) (h0 : n < 0) (h1 : -2 ^ 63 ≤ n) :
    ¬ MatchesFpsPattern (frameTitle n) := by
  obtain ⟨r, hr, hr0⟩ := fpsValue_neg n h0 h1
  apply not_matches_of_head (frameTitle n) '-'
    (natDigits ((roundNE (|r| * 10 ^ 3)).toNat / 10 ^ 3) ++
      '.' :: fracDigits 3 ((roundNE (|r| * 10 ^ 3)).toNat % 10 ^ 3))
  · unfold frameTitle
    rw [hr, formatFixed_neg r hr0, String.data_append]
  · decide

/-- Over the whole range of the 64-bit counter, the title matches the pattern exactly when
the elapsed count is positive. -/
theorem title_matches_iff (n : Int) (h1 : -2 ^ 63 ≤ n) (h2 : n < 2 ^ 63) :
    MatchesFpsPattern (frameTitle n) ↔ 0 < n := by
  constructor
  · intro hm
    by_contra hn
    rcases lt_or_eq_of_le (not_lt.mp hn) with h | h
    · exact title_negative_elapsed n h h1 hm
    · subst h
      exact not_matches_zero hm
  · intro h0
    obtain ⟨r, hr, hr1, _⟩ := fpsValue_spec n h0 h2
    have hr0 : 0 < r := lt_of_lt_of_le (zpow_pos (by norm_num) _) hr1
    exact (matches_of_nonneg n r hr hr0.le).2

/-- The digits shown are those of the `float` result: for a frame of 200051 ns the title
shows `4998.726`, while `10^9 / 200051` rounded to three decimals is `4998.725`. -/
theorem title_200051 :
    frameTitle 200051 = "OpenGL Test | fps=4998.726" ∧
    roundNE (1000 / ((200051 : ℚ) * (1 / 1000000)) * 1000) = 4998725 := by
  have hN : roundNE (|(5118695 / 1024 : ℚ)| * 10 ^ 3) = 4998726 :=
    roundNE_eq _ _ (by norm_num [abs_of_pos]) (by norm_num [abs_of_pos])
  refine ⟨?_, roundNE_eq _ _ (by norm_num) (by norm_num)⟩
  unfold frameTitle
  rw [fpsValue_200051]
  have hfmt : formatFixed 3 (FP.fin (5118695 / 1024)) =
      ['4', '9', '9', '8', '.', '7', '2', '6'] := by
    have hneg : ¬ ((5118695 / 1024 : ℚ) < 0) := by norm_num
    simp only [formatFixed, if_neg hneg, hN]
    have e1 : (4998726 : ℤ).toNat / 10 ^ 3 = 4998 := by decide
    have e2 : (4998726 : ℤ).toNat % 10 ^ 3 = 726 := by decide
    rw [e1, e2, natDigits_4998]
    rfl
  rw [hfmt]
  decide

/-! ## The coordinates stored by the generator -/

/-- Rounding of a nonzero `q` in the normal range: a finite result within relative error
`2 ^ -prec`. -/
theorem round_err (F : Fmt) (q : ℚ) (lo hi : ℤ) (hp : 1 ≤ F.prec)
    (hnorm : F.emin + ((F.prec : ℤ) - 1) ≤ lo) (hmax : hi < F.emax)
    (hlo : (2 : ℚ) ^ lo ≤ |q|) (hhi : |q| ≤ (2 : ℚ) ^ hi) :
    ∃ r, F.round q = FP.fin r ∧ |r - q| ≤ |q| * (2 : ℚ) ^ (-(F.prec : ℤ)) := by
  have h2 : (0 : ℚ) < 2 := by norm_num
  have h12 : (1 : ℚ) < 2 := by norm_num
  have ha0 : 0 < |q| := lt_of_lt_of_le (zpow_pos h2 lo) hlo
  have hq0 : q ≠ 0 := abs_pos.mp ha0
  have hL1 : (2 : ℚ) ^ Int.log 2 |q| ≤ |q| := by
    have := Int.zpow_log_le_self (b := 2) (r := |q|) (by norm_num) ha0
    simpa using this
  have hloL : lo ≤ Int.log 2 |q| := by
    apply (Int.zpow_le_iff_le_log (b := 2) (r := |q|) (by norm_num) ha0).mp
    simpa using hlo
  have he : ulpExp F q = Int.log 2 |q| - ((F.prec : ℤ) - 1) := by
    simp only [ulpExp]
    apply max_eq_left
    omega
  have hepos : (0 : ℚ) < (2 : ℚ) ^ ulpExp F q := zpow_pos h2 _
  have hpp : (0 : ℚ) < (2 : ℚ) ^ (-(F.prec : ℤ)) := zpow_pos h2 _
  have hp1 : (2 : ℚ) ^ (-(F.prec : ℤ)) ≤ 1 := by
    have : (2 : ℚ) ^ (-(F.prec : ℤ)) ≤ (2 : ℚ) ^ (0 : ℤ) :=
      zpow_le_zpow_right₀ h12.le (by omega)
    simpa using this
  have herr : |(roundNE (q / 2 ^ ulpExp F q) : ℚ) * 2 ^ ulpExp F q - q| ≤
      |q| * (2 : ℚ) ^ (-(F.prec : ℤ)) := by
    have h3 : (roundNE (q / 2 ^ ulpExp F q) : ℚ) * 2 ^ ulpExp F q - q =
        ((roundNE (q / 2 ^ ulpExp F q) : ℚ) - q / 2 ^ ulpExp F q) * 2 ^ ulpExp F q := by
      field_simp
    rw [h3, abs_mul, abs_of_pos hepos]
    have h4 : (2 : ℚ) ^ ulpExp F q = 2 ^ Int.log 2 |q| * 2 ^ (-(F.prec : ℤ)) * 2 := by
      rw [he, ← zpow_add₀ (by norm_num), ← zpow_add_one₀ (by norm_num)]
      congr 1; omega
    calc |(roundNE (q / 2 ^ ulpExp F q) : ℚ) - q / 2 ^ ulpExp F q| * 2 ^ ulpExp F q
        ≤ 1/2 * 2 ^ ulpExp F q := mul_le_mul_of_nonneg_right (roundNE_err _) hepos.le
      _ = 2 ^ Int.log 2 |q| * 2 ^ (-(F.prec : ℤ)) := by rw [h4]; ring
      _ ≤ |q| * 2 ^ (-(F.prec : ℤ)) := mul_le_mul_of_nonneg_right hL1 hpp.le
  have hno : ¬ (2 : ℚ) ^ (F.emax + 1) ≤
      |(roundNE (q / 2 ^ ulpExp F q) : ℚ) * 2 ^ ulpExp F q| := by
    rw [not_le]
    have h5 : |(roundNE (q / 2 ^ ulpExp F q) : ℚ) * 2 ^ ulpExp F q| ≤
        |(roundNE (q / 2 ^ ulpExp F q) : ℚ) * 2 ^ ulpExp F q - q| + |q| := by
      have := abs_add ((roundNE (q / 2 ^ ulpExp F q) : ℚ) * 2 ^ ulpExp F q - q) q
      simpa using this
    have h6 : |q| * (2 : ℚ) ^ (-(F.prec : ℤ)) ≤ |q| := by
      have := mul_le_mul_of_nonneg_left hp1 ha0.le
      simpa using this
    have h7 : (2 : ℚ) ^ (hi + 1) = 2 ^ hi * 2 := zpow_add_one₀ (by norm_num) hi
    have h8 : (2 : ℚ) ^ (hi + 1) < (2 : ℚ) ^ (F.emax + 1) :=
      zpow_lt_zpow_right₀ h12 (by omega)
    have h9 : (0 : ℚ) < 2 ^ hi := zpow_pos h2 _
    linarith
  exact ⟨_, by simp only [Fmt.round, if_neg hq0, if_neg hno], herr⟩

theorem roundNE_intCast (k : ℤ) : roundNE (k : ℚ) = k :=
  roundNE_eq _ _ (by linarith) (by linarith)

/-- A number `m * 2 ^ j` whose significand `m` fits the format is its own rounding. -/
theorem round_dyadic (F : Fmt) (m j : ℤ) (hm : |(m : ℚ)| < (2 : ℚ) ^ (F.prec : ℤ))
    (hj : F.emin ≤ j) (hov : |(m : ℚ) * (2 : ℚ) ^ j| < (2 : ℚ) ^ (F.emax + 1)) :
    F.round ((m : ℚ) * (2 : ℚ) ^ j) = FP.fin ((m : ℚ) * (2 : ℚ) ^ j) := by
  have h2 : (0 : ℚ) < 2 := by norm_num
  by_cases hm0 : m = 0
  · subst hm0
    simp [Fmt.round]
  have hjpos : (0 : ℚ) < (2 : ℚ) ^ j := zpow_pos h2 _
  have hmq : (m : ℚ) ≠ 0 := by exact_mod_cast hm0
  have hq0 : (m : ℚ) * (2 : ℚ) ^ j ≠ 0 := mul_ne_zero hmq hjpos.ne'
  have ha0 : 0 < |(m : ℚ) * (2 : ℚ) ^ j| := abs_pos.mpr hq0
  have hlt : |(m : ℚ) * (2 : ℚ) ^ j| < (2 : ℚ) ^ ((F.prec : ℤ) + j) := by
    rw [abs_mul, abs_of_pos hjpos, zpow_add₀ (by norm_num)]
    exact mul_lt_mul_of_pos_right hm hjpos
  have hL : Int.log 2 |(m : ℚ) * (2 : ℚ) ^ j| < (F.prec : ℤ) + j := by
    apply (Int.lt_zpow_iff_log_lt (b := 2) (by norm_num) ha0).mp
    simpa using hlt
  have he : ulpExp F ((m : ℚ) * (2 : ℚ) ^ j) ≤ j := by
    simp only [ulpExp]
    apply max_le <;> omega
  have hk : 0 ≤ j - ulpExp F ((m : ℚ) * (2 : ℚ) ^ j) := by omega
  have hy : (m : ℚ) * (2 : ℚ) ^ j / 2 ^ ulpExp F ((m : ℚ) * (2 : ℚ) ^ j) =
      ((m * 2 ^ (j - ulpExp F ((m : ℚ) * (2 : ℚ) ^ j)).toNat : ℤ) : ℚ) := by
    rw [Int.cast_mul, two_zpow_toNat _ hk, zpow_sub₀ (by norm_num)]
    ring
  have hr : (roundNE ((m : ℚ) * (2 : ℚ) ^ j / 2 ^ ulpExp F ((m : ℚ) * (2 : ℚ) ^ j)) : ℚ) *
      2 ^ ulpExp F ((m : ℚ) * (2 : ℚ) ^ j) = (m : ℚ) * (2 : ℚ) ^ j := by
    rw [hy, roundNE_intCast, ← hy]
    field_simp
  have hno : ¬ (2 : ℚ) ^ (F.emax + 1) ≤
      |(roundNE ((m : ℚ) * (2 : ℚ) ^ j / 2 ^ ulpExp F ((m : ℚ) * (2 : ℚ) ^ j)) : ℚ) *
        2 ^ ulpExp F ((m : ℚ) * (2 : ℚ) ^ j)| := by
    rw [hr]; exact not_le.mpr hov
  rw [hr] at hno
  simp only [Fmt.round, if_neg hq0, hr, if_neg hno]

/-- An integer of magnitude below `2 ^ 24` is a `float`. -/
theorem round32_int (m : ℤ) (hm : |(m : ℚ)| < 2 ^ 24) :
    binary32.round (m : ℚ) = FP.fin (m : ℚ) := by
  have h := round_dyadic binary32 m 0 (by simp only [binary32]; exact_mod_cast hm) (by simp [binary32])
    (by
      have : (2 : ℚ) ^ (24 : ℕ) < (2 : ℚ) ^ (binary32.emax + 1) := by
        simp only [binary32]; norm_num
      simp only [zpow_zero, mul_one]
      linarith)
  simpa using h

/-- For a line index up to 80 the sum `-i + 40` is exact, so the stored coordinate is the
quotient `(40 - i) / 40` rounded once into `float`. -/
theorem lineCoord_eval (i : Nat) (hi : i ≤ 80) :
    lineCoord i = binary32.round (((40 : ℚ) - i) / 40) := by
  have hiq : (i : ℚ) ≤ 80 := by exact_mod_cast hi
  have hi0 : (0 : ℚ) ≤ i := Nat.cast_nonneg i
  have h1 : binary32.round ((-(i : ℤ) : ℤ) : ℚ) = FP.fin ((-(i : ℤ) : ℤ) : ℚ) :=
    round32_int _ (by
      rw [abs_lt]; push_cast
      constructor <;> norm_num <;> linarith)
  have h40 : binary32.round 40 = FP.fin 40 := by
    have := round32_int 40 (by norm_num)
    simpa using this
  have h2 : binary32.round (((-(i : ℤ) : ℤ) : ℚ) + 40) =
      FP.fin (((-(i : ℤ) : ℤ) : ℚ) + 40) := by
    have := round32_int (-(i : ℤ) + 40) (by
      rw [abs_lt]; push_cast
      constructor <;> norm_num <;> linarith)
    simpa using this
  unfold lineCoord
  rw [h1, h40]
  show FP.div binary32 (binary32.round (((-(i : ℤ) : ℤ) : ℚ) + 40)) (FP.fin 40) = _
  rw [h2]
  show (if (40 : ℚ) = 0 then
      (if ((-(i : ℤ) : ℤ) : ℚ) + 40 = 0 then FP.nan
        else FP.inf (decide (((-(i : ℤ) : ℤ) : ℚ) + 40 < 0)))
    else binary32.round ((((-(i : ℤ) : ℤ) : ℚ) + 40) / 40)) = _
  rw [if_neg (by norm_num)]
  congr 2
  push_cast
  ring

/-- The stored coordinate of line `i`: a finite `float` within relative error `2^-24` of
`(40 - i) / 40`, and equal to it when `i` is a multiple of 5. -/
theorem lineCoord_spec (i : Nat) (hi : i ≤ 80) :
    ∃ y, lineCoord i = FP.fin y ∧
      |y - ((40 : ℚ) - i) / 40| ≤ |((40 : ℚ) - i) / 40| * (1 / 2 ^ 24) ∧
      (5 ∣ i → y = ((40 : ℚ) - i) / 40) := by
  have hiq : (i : ℚ) ≤ 80 := by exact_mod_cast hi
  have hi0 : (0 : ℚ) ≤ i := Nat.cast_nonneg i
  rw [lineCoord_eval i hi]
  by_cases h5 : 5 ∣ i
  · obtain ⟨k, hk⟩ := h5
    have hk16 : k ≤ 16 := by omega
    have hkq : (k : ℚ) ≤ 16 := by exact_mod_cast hk16
    have hk0 : (0 : ℚ) ≤ k := Nat.cast_nonneg k
    have hq : ((40 : ℚ) - i) / 40 = (((8 - (k : ℤ) : ℤ)) : ℚ) * (2 : ℚ) ^ (-3 : ℤ) := by
      rw [hk]; push_cast; norm_num [zpow_neg]; ring
    have habs : |(((8 - (k : ℤ) : ℤ)) : ℚ)| ≤ 8 := by
      rw [abs_le]; push_cast
      constructor <;> linarith
    have hd := round_dyadic binary32 (8 - (k : ℤ)) (-3)
      (by
        have : (8 : ℚ) < (2 : ℚ) ^ ((binary32.prec : ℕ) : ℤ) := by
          simp only [binary32]; norm_num
        linarith)
      (by simp [binary32])
      (by
        have h8 : (2 : ℚ) ^ (3 : ℤ) < (2 : ℚ) ^ (binary32.emax + 1) := by
          simp only [binary32]; norm_num
        have h3 : (0 : ℚ) < (2 : ℚ) ^ (-3 : ℤ) := zpow_pos (by norm_num) _
        have h31 : (2 : ℚ) ^ (-3 : ℤ) ≤ 1 := by norm_num [zpow_neg]
        rw [abs_mul, abs_of_pos h3]
        have : |(((8 - (k : ℤ) : ℤ)) : ℚ)| * (2 : ℚ) ^ (-3 : ℤ) ≤ 8 * 1 :=
          mul_le_mul habs h31 h3.le (by norm_num)
        have h88 : (8 : ℚ) * 1 = (2 : ℚ) ^ (3 : ℤ) := by norm_num
        linarith)
    rw [hq, hd]
    exact ⟨_, rfl, by simp, fun _ => rfl⟩
  · have hne : i ≠ 40 := by
      intro h; apply h5; rw [h]; decide
    have hq1 : (1 : ℚ) / 40 ≤ |((40 : ℚ) - i) / 40| := by
      rw [abs_div, abs_of_pos (by norm_num : (0 : ℚ) < 40)]
      apply div_le_div_of_nonneg_right _ (by norm_num)
      rcases Nat.lt_or_gt_of_ne hne with h | h
      · have : (i : ℚ) + 1 ≤ 40 := by exact_mod_cast h
        rw [abs_of_pos (by linarith)]; linarith
      · have : (40 : ℚ) + 1 ≤ i := by exact_mod_cast h
        rw [abs_of_neg (by linarith)]; linarith
    have hq2 : |((40 : ℚ) - i) / 40| ≤ 1 := by
      rw [abs_div, abs_of_pos (by norm_num : (0 : ℚ) < 40), div_le_one (by norm_num), abs_le]
      constructor <;> linarith
    obtain ⟨r, hr, herr⟩ := round_err binary32 (((40 : ℚ) - i) / 40) (-6) 0
      (by simp [binary32]) (by simp [binary32]) (by simp [binary32])
      (by
        have : (2 : ℚ) ^ (-6 : ℤ) ≤ 1 / 40 := by norm_num [zpow_neg]
        linarith)
      (by simpa using hq2)
    have e : (2 : ℚ) ^ (-((binary32.prec : ℕ) : ℤ)) = 1 / 2 ^ 24 := by
      simp only [binary32]; norm_num [zpow_neg]
    rw [e] at herr
    exact ⟨r, hr, herr, fun h => absurd h h5⟩

theorem lineCoord_one : lineCoord 1 = FP.fin (8178893 / 8388608) := by
  rw [lineCoord_eval 1 (by decide)]
  have := round_eq binary32 (((40 : ℚ) - (1 : ℕ)) / 40) (-1) (-24) 16357786 (by norm_num)
    (by norm_num [zpow_neg]) (by norm_num) (by simp [binary32])
    (by norm_num [zpow_neg]) (by norm_num [zpow_neg]) (by norm_num)
    (by norm_num [binary32, zpow_neg])
  rw [this]; congr 1; norm_num [zpow_neg]

theorem lineCoord_bounds (i : Nat) (hi : i ≤ 80) :
    ∃ y, lineCoord i = FP.fin y ∧ -1 ≤ y ∧ y ≤ 1 ∧
      |y - ((40 : ℚ) - i) / 40| ≤ 1 / 2 ^ 24 ∧
      |y - ((40 : ℚ) - i) / 40| ≤ |((40 : ℚ) - i) / 40| * (1 / 2 ^ 24) ∧
      (5 ∣ i → y = ((40 : ℚ) - i) / 40) ∧ (y = 0 ↔ i = 40) := by
  have hiq : (i : ℚ) ≤ 80 := by exact_mod_cast hi
  have hi0 : (0 : ℚ) ≤ i := Nat.cast_nonneg i
  obtain ⟨y, hy, herr, hex⟩ := lineCoord_spec i hi
  have hq : |((40 : ℚ) - i) / 40| ≤ 1 := by
    rw [abs_div, abs_of_pos (by norm_num : (0 : ℚ) < 40), div_le_one (by norm_num), abs_le]
    constructor <;> linarith
  have hq0 : 0 ≤ |((40 : ℚ) - i) / 40| := abs_nonneg _
  have herr1 : |y - ((40 : ℚ) - i) / 40| ≤ 1 / 2 ^ 24 := by
    have : |((40 : ℚ) - i) / 40| * (1 / 2 ^ 24) ≤ 1 * (1 / 2 ^ 24) :=
      mul_le_mul_of_nonneg_right hq (by norm_num)
    linarith
  have hzero : y = 0 ↔ i = 40 := by
    constructor
    · intro h0
      rw [h0, zero_sub, abs_neg] at herr
      have h1 : |((40 : ℚ) - i) / 40| = 0 := by
        have : |((40 : ℚ) - i) / 40| * (1 / 2 ^ 24) ≤ |((40 : ℚ) - i) / 40| * (1 / 2) :=
          mul_le_mul_of_nonneg_left (by norm_num) hq0
        linarith
      have h2 : ((40 : ℚ) - i) / 40 = 0 := abs_eq_zero.mp h1
      have h3 : (i : ℚ) = (40 : ℕ) := by
        have : (40 : ℚ) - i = 0 := by
          rcases div_eq_zero_iff.mp h2 with h | h
          · exact h
          · norm_num at h
        push_cast; linarith
      exact_mod_cast h3
    · intro h
      subst h
      rw [hex (by decide)]
      norm_num
  refine ⟨y, hy, ?_, ?_, herr1, herr, hex, hzero⟩
  · by_cases h5 : 5 ∣ i
    · rw [hex h5, le_div_iff₀ (by norm_num)]; linarith
    · have h80 : i ≠ 80 := by intro h; apply h5; rw [h]; decide
      have : (i : ℚ) + 1 ≤ 80 := by
        have : i + 1 ≤ 80 := by omega
        exact_mod_cast this
      have hqlo : -(39 / 40 : ℚ) ≤ ((40 : ℚ) - i) / 40 := by
        rw [le_div_iff₀ (by norm_num)]; linarith
      have h1 := (abs_le.mp herr1).1
      have : (1 : ℚ) / 2 ^ 24 ≤ 1 / 40 := by norm_num
      linarith
  · by_cases h5 : 5 ∣ i
    · rw [hex h5, div_le_iff₀ (by norm_num)]; linarith
    · have h00 : i ≠ 0 := by intro h; apply h5; rw [h]; decide
      have : (1 : ℚ) ≤ i := by
        have : 1 ≤ i := by omega
        exact_mod_cast this
      have hqhi : ((40 : ℚ) - i) / 40 ≤ 39 / 40 := by
        rw [div_le_iff₀ (by norm_num)]; linarith
      have h1 := (abs_le.mp herr1).2
      have : (1 : ℚ) / 2 ^ 24 ≤ 1 / 40 := by norm_num
      linarith

/-! ## The claims on the grid lines -/

/-- C1 as stated fails at line `i = 1`: after the first loop the y-coordinate stored in floats
13 and 19 is the `float` `8178893/8388608`, not `(40 - 1)/40`. -/
theorem horizontal_line_one_rounded :
    ∃ b, afterHorizontal = some b ∧
      b.cell (12*1 + 1) = some (FP.fin (8178893 / 8388608)) ∧
      b.cell (12*1 + 7) = some (FP.fin (8178893 / 8388608)) ∧
      b.cell (12*1 + 1) ≠ some (FP.fin (((40 : ℚ) - (1 : ℕ)) / 40)) := by
  obtain ⟨b1, _, h1, _, _, _, _, _, hc, _, _⟩ := grid_cells
  have c1 := (hc 1 1 (by omega) (by omega)).1
  have c7 := (hc 1 7 (by omega) (by omega)).1
  have e1 : b1.cell (12*1 + 1) = some (FP.fin (8178893 / 8388608)) := by
    rw [c1, ← lineCoord_one]; rfl
  have e7 : b1.cell (12*1 + 7) = some (FP.fin (8178893 / 8388608)) := by
    rw [c7, ← lineCoord_one]; rfl
  refine ⟨b1, h1, e1, e7, ?_⟩
  rw [e1]
  intro h
  have h2 := FP.fin.inj (Option.some.inj h)
  norm_num at h2

/-- C1, amended: for every `i ≤ 80`, after the first loop the two vertices of horizontal line
`i` (floats `12*i ..` and `12*i+6 ..`, vertices `2*i` and `2*i+1` of the 6-float layout) have
x-coordinates exactly `-1` and `+1` and the same y-coordinate `y`, the `float` nearest to
`(40 - i)/40`: within relative error `2^-24` of it, and equal to it when 5 divides `i`. -/
theorem horizontal_lines (i : Nat) (hi : i ≤ 80) :
    ∃ b y, afterHorizontal = some b ∧
      binary32.round (((40 : ℚ) - i) / 40) = FP.fin y ∧
      |y - ((40 : ℚ) - i) / 40| ≤ |((40 : ℚ) - i) / 40| * (1 / 2 ^ 24) ∧
      (5 ∣ i → y = ((40 : ℚ) - i) / 40) ∧
      b.cell (12*i) = some (FP.fin (-1)) ∧ b.cell (12*i + 6) = some (FP.fin 1) ∧
      b.cell (12*i + 1) = some (FP.fin y) ∧ b.cell (12*i + 7) = some (FP.fin y) ∧
      posComp b (2*i) 0 = some (FP.fin (-1)) ∧ posComp b (2*i + 1) 0 = some (FP.fin 1) ∧
      posComp b (2*i) 1 = some (FP.fin y) ∧ posComp b (2*i + 1) 1 = some (FP.fin y) := by
  obtain ⟨b1, _, h1, _, _, _, _, _, hc, _, _⟩ := grid_cells
  obtain ⟨y, hy, herr, hex⟩ := lineCoord_spec i hi
  have c0 := (hc i 0 hi (by omega)).1
  have c1 := (hc i 1 hi (by omega)).1
  have c6 := (hc i 6 hi (by omega)).1
  have c7 := (hc i 7 hi (by omega)).1
  have d1 : b1.cell (12*i + 1) = some (FP.fin y) := by rw [c1, ← hy]; rfl
  have d7 : b1.cell (12*i + 7) = some (FP.fin y) := by rw [c7, ← hy]; rfl
  have e0 : strideFloats * (2*i) + posOffsetFloats + 0 = 12*i + 0 := by
    simp only [strideFloats, posOffsetFloats]; omega
  have e1 : strideFloats * (2*i) + posOffsetFloats + 1 = 12*i + 1 := by
    simp only [strideFloats, posOffsetFloats]; omega
  have e6 : strideFloats * (2*i + 1) + posOffsetFloats + 0 = 12*i + 6 := by
    simp only [strideFloats, posOffsetFloats]; omega
  have e7 : strideFloats * (2*i + 1) + posOffsetFloats + 1 = 12*i + 7 := by
    simp only [strideFloats, posOffsetFloats]; omega
  simp only [posComp, e0, e1, e6, e7]
  exact ⟨b1, y, h1, by rw [← lineCoord_eval i hi]; exact hy, herr, hex,
    c0, c6, d1, d7, c0, c6, d1, d7⟩

/-- C1, amended, at line `i = 1`, whose coordinate `39/40` is no `float`. -/
theorem horizontal_lines_witness :
    ∃ b y, afterHorizontal = some b ∧
      binary32.round (((40 : ℚ) - (1 : ℕ)) / 40) = FP.fin y ∧
      |y - ((40 : ℚ) - (1 : ℕ)) / 40| ≤ |((40 : ℚ) - (1 : ℕ)) / 40| * (1 / 2 ^ 24) ∧
      (5 ∣ 1 → y = ((40 : ℚ) - (1 : ℕ)) / 40) ∧
      b.cell (12*1) = some (FP.fin (-1)) ∧ b.cell (12*1 + 6) = some (FP.fin 1) ∧
      b.cell (12*1 + 1) = some (FP.fin y) ∧ b.cell (12*1 + 7) = some (FP.fin y) ∧
      posComp b (2*1) 0 = some (FP.fin (-1)) ∧ posComp b (2*1 + 1) 0 = some (FP.fin 1) ∧
      posComp b (2*1) 1 = some (FP.fin y) ∧ posComp b (2*1 + 1) 1 = some (FP.fin y) :=
  horizontal_lines 1 (by decide)

/-- C2 as stated fails at line `i = 1`: in the final array the x-coordinate stored in floats
984 and 990 is the `float` `8178893/8388608`, not `(40 - 1)/40`. -/
theorem vertical_line_one_rounded :
    ∃ b, gridVertices = some b ∧
      b.cell (972 + 12*1) = some (FP.fin (8178893 / 8388608)) ∧
      b.cell (972 + 12*1 + 6) = some (FP.fin (8178893 / 8388608)) ∧
      b.cell (972 + 12*1) ≠ some (FP.fin (((40 : ℚ) - (1 : ℕ)) / 40)) := by
  obtain ⟨_, b2, _, h2, _, _, _, _, hc, _, _⟩ := grid_cells
  have c0 := (hc 1 0 (by omega) (by omega)).2.2
  have c6 := (hc 1 6 (by omega) (by omega)).2.2
  have e0 : b2.cell (972 + 12*1) = some (FP.fin (8178893 / 8388608)) := by
    rw [← lineCoord_one]; exact c0
  have e6 : b2.cell (972 + 12*1 + 6) = some (FP.fin (8178893 / 8388608)) := by
    rw [c6, ← lineCoord_one]; rfl
  refine ⟨b2, h2, e0, e6, ?_⟩
  rw [e0]
  intro h
  have h2 := FP.fin.inj (Option.some.inj h)
  norm_num at h2

/-- C2, amended: for every `i ≤ 80`, in the final array the two vertices of vertical line `i`
(floats `972+12*i ..` and `972+12*i+6 ..`, vertices `162+2*i` and `162+2*i+1`) have
y-coordinates exactly `-1` and `+1` and the same x-coordinate `x`, the `float` nearest to
`(40 - i)/40`: within relative error `2^-24` of it, and equal to it when 5 divides `i`; and
every float below index 972 is as the first loop left it. -/
theorem vertical_lines (i : Nat) (hi : i ≤ 80) :
    ∃ b1 b2 x, afterHorizontal = some b1 ∧ gridVertices = some b2 ∧
      binary32.round (((40 : ℚ) - i) / 40) = FP.fin x ∧
      |x - ((40 : ℚ) - i) / 40| ≤ |((40 : ℚ) - i) / 40| * (1 / 2 ^ 24) ∧
      (5 ∣ i → x = ((40 : ℚ) - i) / 40) ∧
      b2.cell (972 + 12*i + 1) = some (FP.fin (-1)) ∧
      b2.cell (972 + 12*i + 7) = some (FP.fin 1) ∧
      b2.cell (972 + 12*i) = some (FP.fin x) ∧ b2.cell (972 + 12*i + 6) = some (FP.fin x) ∧
      posComp b2 (162 + 2*i) 1 = some (FP.fin (-1)) ∧
      posComp b2 (162 + 2*i + 1) 1 = some (FP.fin 1) ∧
      posComp b2 (162 + 2*i) 0 = some (FP.fin x) ∧
      posComp b2 (162 + 2*i + 1) 0 = some (FP.fin x) ∧
      ∀ idx, idx < 972 → b2.cell idx = b1.cell idx := by
  obtain ⟨b1, b2, h1, h2, _, _, _, _, hc, hkeep, _⟩ := grid_cells
  obtain ⟨x, hx, herr, hex⟩ := lineCoord_spec i hi
  have c0 := (hc i 0 hi (by omega)).2.2
  have c1 := (hc i 1 hi (by omega)).2.2
  have c6 := (hc i 6 hi (by omega)).2.2
  have c7 := (hc i 7 hi (by omega)).2.2
  have d0 : b2.cell (972 + 12*i) = some (FP.fin x) := by rw [← hx]; exact c0
  have d6 : b2.cell (972 + 12*i + 6) = some (FP.fin x) := by rw [c6, ← hx]; rfl
  have e0 : strideFloats * (162 + 2*i) + posOffsetFloats + 0 = 972 + 12*i := by
    simp only [strideFloats, posOffsetFloats]; omega
  have e1 : strideFloats * (162 + 2*i) + posOffsetFloats + 1 = 972 + 12*i + 1 := by
    simp only [strideFloats, posOffsetFloats]; omega
  have e6 : strideFloats * (162 + 2*i + 1) + posOffsetFloats + 0 = 972 + 12*i + 6 := by
    simp only [strideFloats, posOffsetFloats]; omega
  have e7 : strideFloats * (162 + 2*i + 1) + posOffsetFloats + 1 = 972 + 12*i + 7 := by
    simp only [strideFloats, posOffsetFloats]; omega
  simp only [posComp, e0, e1, e6, e7]
  exact ⟨b1, b2, x, h1, h2, by rw [← lineCoord_eval i hi]; exact hx, herr, hex,
    c1, c7, d0, d6, c1, c7, d0, d6, hkeep⟩

/-- C2, amended, at line `i = 1`, whose coordinate `39/40` is no `float`. -/
theorem vertical_lines_witness :
    ∃ b1 b2 x, afterHorizontal = some b1 ∧ gridVertices = some b2 ∧
      binary32.round (((40 : ℚ) - (1 : ℕ)) / 40) = FP.fin x ∧
      |x - ((40 : ℚ) - (1 : ℕ)) / 40| ≤ |((40 : ℚ) - (1 : ℕ)) / 40| * (1 / 2 ^ 24) ∧
      (5 ∣ 1 → x = ((40 : ℚ) - (1 : ℕ)) / 40) ∧
      b2.cell (972 + 12*1 + 1) = some (FP.fin (-1)) ∧
      b2.cell (972 + 12*1 + 7) = some (FP.fin 1) ∧
      b2.cell (972 + 12*1) = some (FP.fin x) ∧ b2.cell (972 + 12*1 + 6) = some (FP.fin x) ∧
      posComp b2 (162 + 2*1) 1 = some (FP.fin (-1)) ∧
      posComp b2 (162 + 2*1 + 1) 1 = some (FP.fin 1) ∧
      posComp b2 (162 + 2*1) 0 = some (FP.fin x) ∧
      posComp b2 (162 + 2*1 + 1) 0 = some (FP.fin x) ∧
      ∀ idx, idx < 972 → b2.cell idx = b1.cell idx :=
  vertical_lines 1 (by decide)

/-- C6 as stated fails at the first pair of lines: the stored coordinates of lines 0 and 1 are
`1` and `8178893/8388608`, and their difference `209715/8388608` is not `1/40`. -/
theorem line_spacing_zero_one :
    ∃ a b, lineCoord 0 = FP.fin a ∧ lineCoord 1 = FP.fin b ∧
      a - b = 209715 / 8388608 ∧ a - b ≠ 1 / 40 := by
  obtain ⟨y, hy, _, hex⟩ := lineCoord_spec 0 (by decide)
  have h0 : y = 1 := by
    rw [hex (by decide)]; norm_num
  rw [h0] at hy
  exact ⟨1, 8178893 / 8388608, hy, lineCoord_one, by norm_num, by norm_num⟩

/-- C6, amended: the stored line coordinates `c i`, the `float`s nearest to `(40 - i)/40` for
`i = 0..80`, span the whole range and are evenly spaced up to rounding: `c 0 = 1`,
`c 80 = -1`, every `c i` lies in `[-1, 1]` within `2^-24` of `(40 - i)/40` (and equals it when
5 divides `i`), `c i - c (i+1)` is positive and within `2^-23` of `1/40`, and `c i = 0`
exactly when `i = 40`; horizontal line 40 runs from `(-1, 0)` to `(1, 0)` and vertical line 40
from `(0, -1)` to `(0, 1)`. -/
theorem line_coordinates :
    lineCoord 0 = FP.fin 1 ∧ lineCoord 80 = FP.fin (-1) ∧ lineCoord 40 = FP.fin 0 ∧
    (∀ i, i ≤ 80 → ∃ y, lineCoord i = FP.fin y ∧ -1 ≤ y ∧ y ≤ 1 ∧
      |y - ((40 : ℚ) - i) / 40| ≤ 1 / 2 ^ 24 ∧
      (5 ∣ i → y = ((40 : ℚ) - i) / 40) ∧ (y = 0 ↔ i = 40)) ∧
    (∀ i, i < 80 → ∃ a b, lineCoord i = FP.fin a ∧ lineCoord (i + 1) = FP.fin b ∧
      b < a ∧ |a - b - 1 / 40| ≤ 1 / 2 ^ 23) ∧
    ∃ buf, gridVertices = some buf ∧
      posComp buf 80 0 = some (FP.fin (-1)) ∧ posComp buf 80 1 = some (FP.fin 0) ∧
      posComp buf 81 0 = some (FP.fin 1) ∧ posComp buf 81 1 = some (FP.fin 0) ∧
      posComp buf 242 0 = some (FP.fin 0) ∧ posComp buf 242 1 = some (FP.fin (-1)) ∧
      posComp buf 243 0 = some (FP.fin 0) ∧ posComp buf 243 1 = some (FP.fin 1) := by
  have exact_at : ∀ i, i ≤ 80 → 5 ∣ i → lineCoord i = FP.fin (((40 : ℚ) - i) / 40) := by
    intro i hi h5
    obtain ⟨y, hy, _, hex⟩ := lineCoord_spec i hi
    rw [hy, hex h5]
  have h0 : lineCoord 0 = FP.fin 1 := by
    rw [exact_at 0 (by decide) (by decide)]; norm_num
  have h80 : lineCoord 80 = FP.fin (-1) := by
    rw [exact_at 80 (by decide) (by decide)]; norm_num
  have h40 : lineCoord 40 = FP.fin 0 := by
    rw [exact_at 40 (by decide) (by decide)]; norm_num
  refine ⟨h0, h80, h40, ?_, ?_, ?_⟩
  · intro i hi
    obtain ⟨y, hy, h1, h2, h3, _, h5, h6⟩ := lineCoord_bounds i hi
    exact ⟨y, hy, h1, h2, h3, h5, h6⟩
  · intro i hi
    obtain ⟨a, ha, _, _, ea, _⟩ := lineCoord_bounds i (by omega)
    obtain ⟨b, hb, _, _, eb, _⟩ := lineCoord_bounds (i + 1) (by omega)
    have e : ((40 : ℚ) - i) / 40 - ((40 : ℚ) - ((i + 1 : ℕ) : ℚ)) / 40 = 1 / 40 := by
      push_cast; ring
    have ea' := abs_le.mp ea
    have eb' := abs_le.mp eb
    have k : (1 : ℚ) / 2 ^ 24 + 1 / 2 ^ 24 = 1 / 2 ^ 23 := by norm_num
    have k2 : (1 : ℚ) / 2 ^ 23 < 1 / 40 := by norm_num
    refine ⟨a, b, ha, hb, ?_, ?_⟩
    · linarith [ea'.1, eb'.2]
    · rw [abs_le]
      constructor <;> linarith [ea'.1, ea'.2, eb'.1, eb'.2]
  · obtain ⟨b1, b2, _, h2, _, _, _, _, hc, _, _⟩ := grid_cells
    have a0 := (hc 40 0 (by omega) (by omega))
    have a1 := (hc 40 1 (by omega) (by omega))
    have a6 := (hc 40 6 (by omega) (by omega))
    have a7 := (hc 40 7 (by omega) (by omega))
    have r1 : (hRow 40)[1]? = some (FP.fin 0) := by rw [← h40]; rfl
    have r7 : (hRow 40)[7]? = some (FP.fin 0) := by rw [← h40]; rfl
    have v0 : (vRow 40)[0]? = some (FP.fin 0) := by rw [← h40]; rfl
    have v6 : (vRow 40)[6]? = some (FP.fin 0) := by rw [← h40]; rfl
    refine ⟨b2, h2, a0.2.1, ?_, a6.2.1, ?_, ?_, a1.2.2, ?_, a7.2.2⟩
    · exact a1.2.1.trans r1
    · exact a7.2.1.trans r7
    · exact a0.2.2.trans v0
    · exact a6.2.2.trans v6

end GLTest
